import Mathlib

/-!
Verification of the Amana-Marketing dashboard's aggregation engine and
visualization primitives, shallowly embedded in Lean 4.

Numbers: the source performs JavaScript floating-point arithmetic; we model
all numeric fields as exact rationals (`ℚ`), the standard idealization for
claims about ratios and sums.  The `new Date(...).getTime()` conversion used
by the weekly sort is abstracted as an arbitrary parameter
`getTime : String → ℚ`; every theorem quantifies over it.  JavaScript `Map`
and plain-object accumulators preserve string-key insertion order, which the
embedding models with association lists that append new keys at the end and
update existing keys in place.  `Array.prototype.sort` is stable (ES2019),
modelled by `List.mergeSort`.
-/

namespace AmanaMarketing

/-- Performance sub-record of a demographic slice (src/types, used by the
demographic view). -/
structure DemographicPerformance where
  impressions : ℚ
  clicks : ℚ
  conversions : ℚ
  ctr : ℚ
  conversion_rate : ℚ
  deriving DecidableEq

/-- One demographic breakdown slice of a campaign. -/
structure DemographicBreakdown where
  gender : String
  age_group : String
  percentage_of_audience : ℚ
  performance : DemographicPerformance
  deriving DecidableEq

/-- One device-performance record of a campaign (also the shape of the two
rollup buckets on the device page). -/
structure DevicePerformance where
  device : String
  impressions : ℚ
  clicks : ℚ
  conversions : ℚ
  spend : ℚ
  revenue : ℚ
  ctr : ℚ
  conversion_rate : ℚ
  percentage_of_traffic : ℚ
  deriving DecidableEq

/-- One weekly-performance record of a campaign. -/
structure WeeklyPerformance where
  week_start : String
  week_end : String
  impressions : ℚ
  clicks : ℚ
  conversions : ℚ
  spend : ℚ
  revenue : ℚ
  deriving DecidableEq

/-- One regional-performance record of a campaign. -/
structure RegionalPerformance where
  region : String
  country : String
  impressions : ℚ
  clicks : ℚ
  conversions : ℚ
  spend : ℚ
  revenue : ℚ
  ctr : ℚ
  conversion_rate : ℚ
  cpc : ℚ
  cpa : ℚ
  roas : ℚ
  deriving DecidableEq

/-- A campaign: totals plus four optional breakdown sequences.  A `none`
breakdown models the absent field that the views skip with
`if (!campaign.xxx) return`. -/
structure Campaign where
  name : String
  spend : ℚ
  revenue : ℚ
  demographic_breakdown : Option (List DemographicBreakdown)
  device_performance : Option (List DevicePerformance)
  weekly_performance : Option (List WeeklyPerformance)
  regional_performance : Option (List RegionalPerformance)
  deriving DecidableEq

/-- The root snapshot. -/
structure MarketingData where
  campaigns : List Campaign
  deriving DecidableEq

/-! ## Insertion-ordered association maps

Models a JavaScript `Map` keyed by strings: setting a fresh key appends it,
setting a present key updates its value in place. -/

/-- Lookup in an association list (`Map.get` / `Map.has`). -/
def assocGet (k : String) : List (String × α) → Option α
  | [] => none
  | (k', v) :: rest => if k' = k then some v else assocGet k rest

/-- Insert-or-merge: on a fresh key store `v`; on a present key replace the
stored value `w` with `merge w v` (existing first, incoming second), keeping
insertion order. -/
def mapInsertWith (merge : α → α → α) (k : String) (v : α) :
    List (String × α) → List (String × α)
  | [] => [(k, v)]
  | (k', w) :: rest =>
    if k' = k then (k', merge w v) :: rest
    else (k', w) :: mapInsertWith merge k v rest

/-- Fold a record list into an insertion-ordered map, grouping by `key`:
the first record of a key seeds its entry, later records are merged in.
This is the shared shape of the weekly and regional rollup loops. -/
def groupFold (key : α → String) (merge : α → α → α) (rs : List α) :
    List (String × α) :=
  rs.foldl (fun m r => mapInsertWith merge (key r) r m) []

/-! ## Weekly rollup (WeeklyView, `weeklyData` useMemo) -/

/-- The merge branch of the weekly rollup: add the five raw fields of the
incoming record onto the existing accumulator entry; `week_start` and
`week_end` stay those of the seeded copy. -/
def mergeWeekly (existing week : WeeklyPerformance) : WeeklyPerformance :=
  { existing with
    impressions := existing.impressions + week.impressions
    clicks := existing.clicks + week.clicks
    conversions := existing.conversions + week.conversions
    spend := existing.spend + week.spend
    revenue := existing.revenue + week.revenue }

/-- All weekly records of all campaigns, in campaign order; a campaign with
no `weekly_performance` contributes nothing. -/
def allWeeklyRecords (md : MarketingData) : List WeeklyPerformance :=
  md.campaigns.flatMap fun c => c.weekly_performance.getD []

/-- The `weekMap` accumulator after the two nested `forEach` loops. -/
def weekMapOf (md : MarketingData) : List (String × WeeklyPerformance) :=
  groupFold (fun w => w.week_start) mergeWeekly (allWeeklyRecords md)

/-- `Array.from(weekMap.values())`: the merged entries in first-encounter
order, before sorting. -/
def weekEntries (md : MarketingData) : List WeeklyPerformance :=
  (weekMapOf md).map Prod.snd

/-- The weekly rollup: merged entries sorted ascending by the chronological
value of `week_start`.  `getTime` abstracts `new Date(s).getTime()`; the
stable `Array.prototype.sort` is modelled by `List.mergeSort`. -/
def weeklyData (getTime : String → ℚ) (md : MarketingData) :
    List WeeklyPerformance :=
  (weekEntries md).mergeSort fun a b =>
    decide (getTime a.week_start ≤ getTime b.week_start)

/-! ## Regional rollup (RegionView, `regionalData` useMemo) -/

/-- The merge branch of the regional rollup: sum the five raw fields, then
immediately recompute every derived rate from the running sums, each guarded
to 0 on a non-positive denominator exactly as in the source. -/
def mergeRegional (existing region : RegionalPerformance) : RegionalPerformance :=
  let impressions := existing.impressions + region.impressions
  let clicks := existing.clicks + region.clicks
  let conversions := existing.conversions + region.conversions
  let spend := existing.spend + region.spend
  let revenue := existing.revenue + region.revenue
  { existing with
    impressions := impressions
    clicks := clicks
    conversions := conversions
    spend := spend
    revenue := revenue
    ctr := if 0 < impressions then clicks / impressions * 100 else 0
    conversion_rate := if 0 < clicks then conversions / clicks * 100 else 0
    cpc := if 0 < clicks then spend / clicks else 0
    cpa := if 0 < conversions then spend / conversions else 0
    roas := if 0 < spend then revenue / spend else 0 }

/-- All regional records of all campaigns, in campaign order. -/
def allRegionalRecords (md : MarketingData) : List RegionalPerformance :=
  md.campaigns.flatMap fun c => c.regional_performance.getD []

/-- The `regionMap` accumulator after the two nested `forEach` loops. -/
def regionMapOf (md : MarketingData) : List (String × RegionalPerformance) :=
  groupFold (fun r => r.region) mergeRegional (allRegionalRecords md)

/-- Merged regional entries in first-encounter order, before sorting. -/
def regionEntries (md : MarketingData) : List RegionalPerformance :=
  (regionMapOf md).map Prod.snd

/-- The regional rollup: merged entries sorted descending by `revenue`
(the comparator `(a, b) => b.revenue - a.revenue`, stable). -/
def regionalData (md : MarketingData) : List RegionalPerformance :=
  (regionEntries md).mergeSort fun a b => decide (b.revenue ≤ a.revenue)

/-! ## Device rollup (DeviceView, `deviceData` useMemo) -/

/-- One row of the per-(campaign, device) detail table. -/
structure CampaignDeviceBreakdown where
  campaign : String
  device : String
  impressions : ℚ
  clicks : ℚ
  conversions : ℚ
  spend : ℚ
  revenue : ℚ
  ctr : ℚ
  conversion_rate : ℚ
  roas : ℚ
  deriving DecidableEq

/-- The aggregate result of the device view. -/
structure AggregatedDeviceData where
  mobileData : DevicePerformance
  desktopData : DevicePerformance
  campaignDeviceBreakdown : List CampaignDeviceBreakdown
  deriving DecidableEq

/-- The zero-initialized `mobileAgg` literal. -/
def mobileInit : DevicePerformance :=
  { device := "Mobile", impressions := 0, clicks := 0, conversions := 0
    spend := 0, revenue := 0, ctr := 0, conversion_rate := 0
    percentage_of_traffic := 0 }

/-- The zero-initialized `desktopAgg` literal. -/
def desktopInit : DevicePerformance :=
  { device := "Desktop", impressions := 0, clicks := 0, conversions := 0
    spend := 0, revenue := 0, ctr := 0, conversion_rate := 0
    percentage_of_traffic := 0 }

/-- Add the five raw fields of a device record onto a bucket. -/
def addDeviceCounts (agg d : DevicePerformance) : DevicePerformance :=
  { agg with
    impressions := agg.impressions + d.impressions
    clicks := agg.clicks + d.clicks
    conversions := agg.conversions + d.conversions
    spend := agg.spend + d.spend
    revenue := agg.revenue + d.revenue }

/-- The detail row pushed for every device record: raw fields and the
pre-computed rates verbatim, plus a per-row `roas` guarded on `spend > 0`. -/
def breakdownRow (campaignName : String) (d : DevicePerformance) :
    CampaignDeviceBreakdown :=
  { campaign := campaignName, device := d.device
    impressions := d.impressions, clicks := d.clicks
    conversions := d.conversions, spend := d.spend, revenue := d.revenue
    ctr := d.ctr, conversion_rate := d.conversion_rate
    roas := if 0 < d.spend then d.revenue / d.spend else 0 }

/-- All device records of all campaigns, paired with their campaign's name. -/
def allDeviceRecords (md : MarketingData) : List (String × DevicePerformance) :=
  md.campaigns.flatMap fun c =>
    (c.device_performance.getD []).map fun d => (c.name, d)

/-- Accumulator state of the device loop. -/
structure DeviceAcc where
  mobile : DevicePerformance
  desktop : DevicePerformance
  rows : List CampaignDeviceBreakdown
  deriving DecidableEq

/-- One iteration of the device loop body: bucket by exact `device` string
(anything else is skipped by both buckets), then push the detail row. -/
def deviceStep (acc : DeviceAcc) (p : String × DevicePerformance) : DeviceAcc :=
  let acc1 :=
    if p.2.device = "Mobile" then
      { acc with mobile := addDeviceCounts acc.mobile p.2 }
    else if p.2.device = "Desktop" then
      { acc with desktop := addDeviceCounts acc.desktop p.2 }
    else acc
  { acc1 with rows := acc1.rows ++ [breakdownRow p.1 p.2] }

/-- After accumulation: recompute `ctr` and `conversion_rate` from the
bucket sums and compute `percentage_of_traffic` against the combined
impressions, each guarded to 0 on a non-positive denominator. -/
def finalizeDevice (acc : DeviceAcc) : AggregatedDeviceData :=
  let totalImpressions := acc.mobile.impressions + acc.desktop.impressions
  { mobileData :=
      { acc.mobile with
        ctr := if 0 < acc.mobile.impressions then
            acc.mobile.clicks / acc.mobile.impressions * 100 else 0
        conversion_rate := if 0 < acc.mobile.clicks then
            acc.mobile.conversions / acc.mobile.clicks * 100 else 0
        percentage_of_traffic := if 0 < totalImpressions then
            acc.mobile.impressions / totalImpressions * 100 else 0 }
    desktopData :=
      { acc.desktop with
        ctr := if 0 < acc.desktop.impressions then
            acc.desktop.clicks / acc.desktop.impressions * 100 else 0
        conversion_rate := if 0 < acc.desktop.clicks then
            acc.desktop.conversions / acc.desktop.clicks * 100 else 0
        percentage_of_traffic := if 0 < totalImpressions then
            acc.desktop.impressions / totalImpressions * 100 else 0 }
    campaignDeviceBreakdown := acc.rows }

/-- The device rollup. -/
def deviceData (md : MarketingData) : AggregatedDeviceData :=
  finalizeDevice ((allDeviceRecords md).foldl deviceStep
    { mobile := mobileInit, desktop := desktopInit, rows := [] })

/-- The render-time ROAS of the mobile card (`mobileROAS` on the device
page), computed from the rolled-up bucket. -/
def mobileRoasOf (md : MarketingData) : ℚ :=
  let m := (deviceData md).mobileData
  if 0 < m.spend then m.revenue / m.spend else 0

/-- The render-time ROAS of the desktop card (`desktopROAS` on the device
page), computed from the rolled-up bucket. -/
def desktopRoasOf (md : MarketingData) : ℚ :=
  let d := (deviceData md).desktopData
  if 0 < d.spend then d.revenue / d.spend else 0

/-- The render-time ROAS of a weekly table row (`row.spend > 0 ?
row.revenue / row.spend : 0`). -/
def weeklyRowRoas (row : WeeklyPerformance) : ℚ :=
  if 0 < row.spend then row.revenue / row.spend else 0

/-! ## Demographic rollup (DemographicView, `demographicData` useMemo) -/

/-- One row of the per-(campaign, age group) performance tables, carrying
the slice's own pre-computed rates verbatim. -/
structure CampaignAgePerformance where
  campaign : String
  age_group : String
  impressions : ℚ
  clicks : ℚ
  conversions : ℚ
  ctr : ℚ
  conversion_rate : ℚ
  deriving DecidableEq

/-- The aggregate result of the demographic view. -/
structure AggregatedDemographicData where
  maleClicks : ℚ
  maleSpend : ℚ
  maleRevenue : ℚ
  femaleClicks : ℚ
  femaleSpend : ℚ
  femaleRevenue : ℚ
  ageGroupSpend : List (String × ℚ)
  ageGroupRevenue : List (String × ℚ)
  maleAgeGroupPerformance : List CampaignAgePerformance
  femaleAgeGroupPerformance : List CampaignAgePerformance
  deriving DecidableEq

/-- The empty accumulator state. -/
def demoInit : AggregatedDemographicData :=
  { maleClicks := 0, maleSpend := 0, maleRevenue := 0
    femaleClicks := 0, femaleSpend := 0, femaleRevenue := 0
    ageGroupSpend := [], ageGroupRevenue := []
    maleAgeGroupPerformance := [], femaleAgeGroupPerformance := [] }

/-- Read a string key of a plain-object accumulator (`obj[k]`, `undefined`
when absent). -/
def objGet (m : List (String × ℚ)) (k : String) : Option ℚ :=
  match m with
  | [] => none
  | (k', v) :: rest => if k' = k then some v else objGet rest k

/-- Write a string key of a plain-object accumulator, preserving key
insertion order. -/
def objSet (m : List (String × ℚ)) (k : String) (v : ℚ) : List (String × ℚ) :=
  match m with
  | [] => [(k, v)]
  | (k', w) :: rest =>
    if k' = k then (k', v) :: rest else (k', w) :: objSet rest k v

/-- JavaScript falsiness of `obj[k]` for a number-or-undefined value:
`undefined` and `0` are falsy (`NaN`, not representable in `ℚ`, is out of
the model). -/
def jsFalsyQ (v : Option ℚ) : Bool :=
  match v with
  | none => true
  | some x => x == 0

/-- The proportional allocation `demoSpend = campaign.spend ×
(percentage_of_audience / 100)`. -/
def demoSpend (c : Campaign) (d : DemographicBreakdown) : ℚ :=
  c.spend * (d.percentage_of_audience / 100)

/-- The proportional allocation `demoRevenue = campaign.revenue ×
(percentage_of_audience / 100)`. -/
def demoRevenue (c : Campaign) (d : DemographicBreakdown) : ℚ :=
  c.revenue * (d.percentage_of_audience / 100)

/-- The row pushed onto a gender's performance table for a slice. -/
def slicePerformanceRow (c : Campaign) (d : DemographicBreakdown) :
    CampaignAgePerformance :=
  { campaign := c.name, age_group := d.age_group
    impressions := d.performance.impressions
    clicks := d.performance.clicks
    conversions := d.performance.conversions
    ctr := d.performance.ctr
    conversion_rate := d.performance.conversion_rate }

/-- One iteration of the demographic loop body: bucket clicks and the
allocated spend/revenue by exact gender string ("Male"/"Female"; anything
else touches neither gender bucket), then accumulate the allocations into
the age-group maps.  The age-group seeding reproduces the source's
JavaScript falsy check `if (!ageGroupSpend[k])`, which resets both buckets
to 0 when the spend bucket is absent or holds 0. -/
def processSlice (c : Campaign) (st : AggregatedDemographicData)
    (d : DemographicBreakdown) : AggregatedDemographicData :=
  let dClicks := d.performance.clicks
  let dSpend := demoSpend c d
  let dRevenue := demoRevenue c d
  let st1 :=
    if d.gender = "Male" then
      { st with
        maleClicks := st.maleClicks + dClicks
        maleSpend := st.maleSpend + dSpend
        maleRevenue := st.maleRevenue + dRevenue
        maleAgeGroupPerformance :=
          st.maleAgeGroupPerformance ++ [slicePerformanceRow c d] }
    else if d.gender = "Female" then
      { st with
        femaleClicks := st.femaleClicks + dClicks
        femaleSpend := st.femaleSpend + dSpend
        femaleRevenue := st.femaleRevenue + dRevenue
        femaleAgeGroupPerformance :=
          st.femaleAgeGroupPerformance ++ [slicePerformanceRow c d] }
    else st
  let reset := jsFalsyQ (objGet st1.ageGroupSpend d.age_group)
  let spendBase := if reset then 0 else (objGet st1.ageGroupSpend d.age_group).getD 0
  let revenueBase := if reset then 0 else (objGet st1.ageGroupRevenue d.age_group).getD 0
  { st1 with
    ageGroupSpend := objSet st1.ageGroupSpend d.age_group (spendBase + dSpend)
    ageGroupRevenue := objSet st1.ageGroupRevenue d.age_group (revenueBase + dRevenue) }

/-- The demographic rollup. -/
def demographicData (md : MarketingData) : AggregatedDemographicData :=
  md.campaigns.foldl
    (fun st c => (c.demographic_breakdown.getD []).foldl (processSlice c) st)
    demoInit

/-! ## Line chart scaling (LineChart) -/

/-- One point of a line-chart series. -/
structure LineChartDataPoint where
  label : String
  value : ℚ
  deriving DecidableEq

/-- One series of a line chart. -/
structure LineChartSeries where
  name : String
  data : List LineChartDataPoint
  color : String
  deriving DecidableEq

/-- `series.flatMap((s) => s.data.map((d) => d.value))`: every value of
every series. -/
def allValuesOf (series : List LineChartSeries) : List ℚ :=
  series.flatMap fun s => s.data.map fun d => d.value

/-- `Math.max(...values)` on a non-empty list (0 on `[]`, a case the
component's empty-input early return makes unreachable). -/
def jsMaxQ : List ℚ → ℚ
  | [] => 0
  | x :: xs => xs.foldl max x

/-- `Math.min(...values)` on a non-empty list. -/
def jsMinQ : List ℚ → ℚ
  | [] => 0
  | x :: xs => xs.foldl min x

/-- The shared maximum of every value of every series. -/
def maxValueOf (series : List LineChartSeries) : ℚ := jsMaxQ (allValuesOf series)

/-- The shared minimum of every value of every series. -/
def minValueOf (series : List LineChartSeries) : ℚ := jsMinQ (allValuesOf series)

/-- `padding = valueRange * 0.1`. -/
def paddingOf (series : List LineChartSeries) : ℚ :=
  (maxValueOf series - minValueOf series) * (1 / 10)

/-- `chartMin = Math.max(0, minValue - padding)`: note the clamp at 0. -/
def chartMinOf (series : List LineChartSeries) : ℚ :=
  max 0 (minValueOf series - paddingOf series)

/-- `chartMax = maxValue + padding`. -/
def chartMaxOf (series : List LineChartSeries) : ℚ :=
  maxValueOf series + paddingOf series

/-- `chartRange = chartMax - chartMin`. -/
def chartRangeOf (series : List LineChartSeries) : ℚ :=
  chartMaxOf series - chartMinOf series

/-- The y-coordinate mapping: the degenerate domain maps every value to the
vertical midpoint, otherwise the value is mapped affinely and inverted
(larger values sit higher, i.e. smaller y). -/
def getYPosition (series : List LineChartSeries) (chartHeight value : ℚ) : ℚ :=
  if chartRangeOf series = 0 then chartHeight / 2
  else chartHeight - (value - chartMinOf series) / chartRangeOf series * chartHeight

/-! ## Bubble map sizing (BubbleMap `enrichedData`) -/

/-- One input point of the bubble map. -/
structure BubbleMapDataPoint where
  region : String
  country : String
  value : ℚ
  secondaryValue : Option ℚ
  deriving DecidableEq

/-- The values of a batch, whose min and max drive the size scaling. -/
def bubbleValues (data : List BubbleMapDataPoint) : List ℚ :=
  data.map fun d => d.value

/-- The square-root normalization of a value within `[min, max]`:
`maxValue === minValue ? 0.5 : Math.sqrt((v - min) / (max - min))`.  The
fraction is exact in `ℚ`; the square root lives in `ℝ`. -/
noncomputable def normalizedValueOf (minV maxV v : ℚ) : ℝ :=
  if maxV = minV then 1 / 2
  else Real.sqrt (((v - minV) / (maxV - minV) : ℚ) : ℝ)

/-- `size = 8 + normalizedValue * 24`, the radius in `[8, 32]`. -/
noncomputable def bubbleSizeOf (minV maxV v : ℚ) : ℝ :=
  8 + normalizedValueOf minV maxV v * 24

/-- The radius assigned to a point of a batch (the subsequent descending
sort by size only permutes the enriched points and does not alter any
radius). -/
noncomputable def bubbleSizeIn (data : List BubbleMapDataPoint) (v : ℚ) : ℝ :=
  bubbleSizeOf (jsMinQ (bubbleValues data)) (jsMaxQ (bubbleValues data)) v

/-! ## Heap model of the aggregation loops (frame property)

The source mutates accumulator objects in place (`existing.impressions +=
...`) after seeding them with spread copies (`{ ...week }`).  To make the
"input is never mutated" claim meaningful we re-express the weekly,
regional and device loops over an explicit heap of records addressed by
naturals: input records live at addresses below a bound `c0`, every seed
copies a record to a freshly allocated address, and every merge writes only
to such fresh addresses. -/

/-- A heap of records of type `α`. -/
def Heap (α : Type) := Nat → α

/-- Write one address of a heap. -/
def hupd (h : Heap α) (r : Nat) (v : α) : Heap α :=
  fun r' => if r' = r then v else h r'

/-- State of a heap-level grouping fold: the heap, the next fresh address,
and the `Map` from group key to the address of its accumulator copy. -/
structure GroupHeapState (α : Type) where
  heap : Heap α
  next : Nat
  keyMap : List (String × Nat)

/-- One iteration of the weekly/regional loop body over the heap: read the
input record; on a fresh key allocate a copy at `next` and register it; on
a present key merge in place at the registered address. -/
def groupHeapStep (key : α → String) (merge : α → α → α)
    (st : GroupHeapState α) (ref : Nat) : GroupHeapState α :=
  let record := st.heap ref
  match assocGet (key record) st.keyMap with
  | none =>
    { heap := hupd st.heap st.next record
      next := st.next + 1
      keyMap := st.keyMap ++ [(key record, st.next)] }
  | some j =>
    { st with heap := hupd st.heap j (merge (st.heap j) record) }

/-- Run a grouping rollup over the heap: input records live at the listed
addresses, fresh allocation starts at `c0`. -/
def groupHeapRun (key : α → String) (merge : α → α → α)
    (h0 : Heap α) (c0 : Nat) (refs : List Nat) : GroupHeapState α :=
  refs.foldl (groupHeapStep key merge) { heap := h0, next := c0, keyMap := [] }

/-- The weekly rollup loop over the heap. -/
def weeklyHeapRun (h0 : Heap WeeklyPerformance) (c0 : Nat) (refs : List Nat) :
    GroupHeapState WeeklyPerformance :=
  groupHeapRun (fun w => w.week_start) mergeWeekly h0 c0 refs

/-- The regional rollup loop over the heap. -/
def regionalHeapRun (h0 : Heap RegionalPerformance) (c0 : Nat) (refs : List Nat) :
    GroupHeapState RegionalPerformance :=
  groupHeapRun (fun r => r.region) mergeRegional h0 c0 refs

/-- State of the device loop over the heap: the two accumulator objects
live at fixed addresses, the detail rows are freshly built values. -/
structure DeviceHeapState where
  heap : Heap DevicePerformance
  mobileRef : Nat
  desktopRef : Nat
  rows : List CampaignDeviceBreakdown

/-- One iteration of the device loop body over the heap: mutate the
matching accumulator object in place, then push a freshly built row. -/
def deviceHeapStep (st : DeviceHeapState) (p : String × Nat) : DeviceHeapState :=
  let d := st.heap p.2
  let st1 :=
    if d.device = "Mobile" then
      { st with heap := hupd st.heap st.mobileRef (addDeviceCounts (st.heap st.mobileRef) d) }
    else if d.device = "Desktop" then
      { st with heap := hupd st.heap st.desktopRef (addDeviceCounts (st.heap st.desktopRef) d) }
    else st
  { st1 with rows := st1.rows ++ [breakdownRow p.1 d] }

/-- Run the device rollup over the heap: the two fresh accumulator objects
are allocated at `c0` and `c0 + 1`; input records live at the listed
addresses. -/
def deviceHeapRun (h0 : Heap DevicePerformance) (c0 : Nat)
    (inputs : List (String × Nat)) : DeviceHeapState :=
  inputs.foldl deviceHeapStep
    { heap := hupd (hupd h0 c0 mobileInit) (c0 + 1) desktopInit
      mobileRef := c0, desktopRef := c0 + 1, rows := [] }

/-- The demographic loop over the heap.  Its body only reads slice records
and accumulates into local scalars and freshly created objects, so the heap
is passed through untouched. -/
def demographicHeapRun (h0 : Heap DemographicBreakdown)
    (inputs : List (Campaign × List Nat)) :
    AggregatedDemographicData × Heap DemographicBreakdown :=
  (inputs.foldl
    (fun st p => p.2.foldl (fun st' ref => processSlice p.1 st' (h0 ref)) st)
    demoInit, h0)

/-! ## Auxiliary defined notions used by the statements -/

/-- The numeric projection `g` of the entry stored under key `k`, 0 when
the key is absent.  Used to state the group-sum lemmas. -/
def entryVal (g : α → ℚ) (m : List (String × α)) (k : String) : ℚ :=
  match assocGet k m with
  | some v => g v
  | none => 0

/-- Well-formed regional record: counts and spend are nonnegative (the data
model's "raw counts" and currency amounts). -/
def RegionalNonneg (r : RegionalPerformance) : Prop :=
  0 ≤ r.impressions ∧ 0 ≤ r.clicks ∧ 0 ≤ r.conversions ∧ 0 ≤ r.spend

/-- Well-formed device record: counts are nonnegative. -/
def DeviceNonneg (d : DevicePerformance) : Prop :=
  0 ≤ d.impressions ∧ 0 ≤ d.clicks ∧ 0 ≤ d.conversions ∧ 0 ≤ d.spend

/-- Every device record of the snapshot is well-formed. -/
def DeviceDataNonneg (md : MarketingData) : Prop :=
  ∀ p ∈ allDeviceRecords md, DeviceNonneg p.2

/-! ## Concrete inputs used by the witnesses and counterexample -/

/-- An arbitrary chronological-value function for instantiating the weekly
sort. -/
def wTime : String → ℚ := fun _ => 0

/-- Regional record: spend 100, revenue 200 in Dubai. -/
def exRegionA : RegionalPerformance :=
  { region := "Dubai", country := "UAE", impressions := 1000, clicks := 50
    conversions := 5, spend := 100, revenue := 200, ctr := 5
    conversion_rate := 10, cpc := 2, cpa := 20, roas := 2 }

/-- Regional record: spend 50, revenue 50 in Dubai. -/
def exRegionB : RegionalPerformance :=
  { region := "Dubai", country := "UAE", impressions := 500, clicks := 10
    conversions := 2, spend := 50, revenue := 50, ctr := 2
    conversion_rate := 20, cpc := 5, cpa := 25, roas := 1 }

/-- A regional record with all numeric fields 0. -/
def zeroRegional : RegionalPerformance :=
  { region := "Dubai", country := "UAE", impressions := 0, clicks := 0
    conversions := 0, spend := 0, revenue := 0, ctr := 0
    conversion_rate := 0, cpc := 0, cpa := 0, roas := 0 }

/-- Weekly record of week 2024-01-01 with 10 clicks. -/
def exWeek1 : WeeklyPerformance :=
  { week_start := "2024-01-01", week_end := "2024-01-07"
    impressions := 1000, clicks := 10, conversions := 1
    spend := 100, revenue := 150 }

/-- Weekly record of the same week with 20 clicks. -/
def exWeek2 : WeeklyPerformance :=
  { week_start := "2024-01-01", week_end := "2024-01-07"
    impressions := 2000, clicks := 20, conversions := 3
    spend := 200, revenue := 350 }

/-- A campaign carrying only the given weekly records. -/
def weeklyOnlyCampaign (nm : String) (ws : List WeeklyPerformance) : Campaign :=
  { name := nm, spend := 0, revenue := 0, demographic_breakdown := none
    device_performance := none, weekly_performance := some ws
    regional_performance := none }

/-- Two campaigns reporting the same `week_start`. -/
def exWeeklyMD : MarketingData :=
  { campaigns := [weeklyOnlyCampaign "A" [exWeek1], weeklyOnlyCampaign "B" [exWeek2]] }

/-- An empty snapshot. -/
def exEmptyMD : MarketingData := { campaigns := [] }

/-- A weekly record with all numeric fields 0. -/
def zeroWeekly : WeeklyPerformance :=
  { week_start := "2024-01-01", week_end := "2024-01-07"
    impressions := 0, clicks := 0, conversions := 0, spend := 0, revenue := 0 }

/-- A demographic slice: Male, 25-34, 60% of the audience. -/
def exSliceM : DemographicBreakdown :=
  { gender := "Male", age_group := "25-34", percentage_of_audience := 60
    performance := { impressions := 5000, clicks := 250, conversions := 25
                     ctr := 5, conversion_rate := 10 } }

/-- A demographic slice: Female, 35-44, 40% of the audience. -/
def exSliceF : DemographicBreakdown :=
  { gender := "Female", age_group := "35-44", percentage_of_audience := 40
    performance := { impressions := 4000, clicks := 150, conversions := 20
                     ctr := 3.75, conversion_rate := 13 } }

/-- A demographic slice with a gender outside Male/Female. -/
def exSliceOther : DemographicBreakdown :=
  { gender := "Unknown", age_group := "25-34", percentage_of_audience := 10
    performance := { impressions := 300, clicks := 12, conversions := 2
                     ctr := 4, conversion_rate := 17 } }

/-- A campaign whose slices' percentages sum to 100. -/
def exC3 : Campaign :=
  { name := "Ramadan Sale", spend := 1000, revenue := 3000
    demographic_breakdown := some [exSliceM, exSliceF]
    device_performance := none, weekly_performance := none
    regional_performance := none }

/-- Mobile device record: 100 impressions, 50 clicks, per-record ctr 50. -/
def exDev1 : DevicePerformance :=
  { device := "Mobile", impressions := 100, clicks := 50, conversions := 5
    spend := 10, revenue := 20, ctr := 50, conversion_rate := 10
    percentage_of_traffic := 0 }

/-- Mobile device record: 900 impressions, 0 clicks, per-record ctr 0. -/
def exDev2 : DevicePerformance :=
  { device := "Mobile", impressions := 900, clicks := 0, conversions := 0
    spend := 90, revenue := 0, ctr := 0, conversion_rate := 0
    percentage_of_traffic := 0 }

/-- A device record with all numeric fields 0. -/
def zeroDevice : DevicePerformance :=
  { device := "Mobile", impressions := 0, clicks := 0, conversions := 0
    spend := 0, revenue := 0, ctr := 0, conversion_rate := 0
    percentage_of_traffic := 0 }

/-- A campaign carrying only the given device records. -/
def deviceOnlyCampaign (nm : String) (ds : List DevicePerformance) : Campaign :=
  { name := nm, spend := 0, revenue := 0, demographic_breakdown := none
    device_performance := some ds, weekly_performance := none
    regional_performance := none }

/-- Two campaigns of unequal size reporting mobile records. -/
def exMD5 : MarketingData :=
  { campaigns := [deviceOnlyCampaign "A" [exDev1], deviceOnlyCampaign "B" [exDev2]] }

/-- One-series line chart with values 0 and 10: padded lower bound would be
`0 - 1 = -1`, but the source clamps it to 0. -/
def exPadSeries : List LineChartSeries :=
  [{ name := "Revenue"
     data := [{ label := "W1", value := 0 }, { label := "W2", value := 10 }]
     color := "#10B981" }]

/-- One-series line chart whose values are all equal (degenerate domain). -/
def exFlatSeries : List LineChartSeries :=
  [{ name := "Spend"
     data := [{ label := "W1", value := 5 }, { label := "W2", value := 5 }]
     color := "#3B82F6" }]

/-- The bubble batch with values 10, 40, 90 named by the spec. -/
def exBubbleBatch : List BubbleMapDataPoint :=
  [{ region := "Dubai", country := "UAE", value := 10, secondaryValue := none },
   { region := "Abu Dhabi", country := "UAE", value := 40, secondaryValue := none },
   { region := "Sharjah", country := "UAE", value := 90, secondaryValue := none }]

/-- The 40-valued point of the batch. -/
def exBubble40 : BubbleMapDataPoint :=
  { region := "Abu Dhabi", country := "UAE", value := 40, secondaryValue := none }

/-- A single-point bubble batch (degenerate: max = min). -/
def exBubbleSingle : List BubbleMapDataPoint :=
  [{ region := "Dubai", country := "UAE", value := 7, secondaryValue := none }]

/-- A concrete heap of weekly records. -/
def exWeeklyHeap : Heap WeeklyPerformance := fun _ => exWeek1

/-- A concrete heap of regional records. -/
def exRegionalHeap : Heap RegionalPerformance := fun n =>
  if n = 0 then exRegionA else exRegionB

/-- A concrete heap of device records. -/
def exDeviceHeap : Heap DevicePerformance := fun _ => exDev1

/-- A concrete heap of demographic slices. -/
def exDemoHeap : Heap DemographicBreakdown := fun _ => exSliceM

/-! ## Lemmas on insertion-ordered association maps -/

theorem assocGet_mapInsertWith (merge : α → α → α) (k k' : String) (v : α)
    (m : List (String × α)) :
    assocGet k (mapInsertWith merge k' v m) =
      if k' = k then
        match assocGet k m with
        | some w => some (merge w v)
        | none => some v
      else assocGet k m := by
  induction m with
  | nil =>
    by_cases h : k' = k <;> simp [mapInsertWith, assocGet, h]
  | cons p rest ih =>
    obtain ⟨k₂, w⟩ := p
    by_cases h2 : k₂ = k'
    · subst h2
      by_cases h : k₂ = k <;> simp [mapInsertWith, assocGet, h]
    · by_cases h : k₂ = k
      · subst h
        have hne : k' ≠ k₂ := fun hh => h2 hh.symm
        simp [mapInsertWith, assocGet, h2, hne]
      · simp [mapInsertWith, assocGet, h2, h, ih]

theorem entryVal_mapInsertWith (g : α → ℚ) (merge : α → α → α)
    (hg : ∀ a b, g (merge a b) = g a + g b)
    (k' : String) (v : α) (m : List (String × α)) (k : String) :
    entryVal g (mapInsertWith merge k' v m) k =
      entryVal g m k + (if k' = k then g v else 0) := by
  unfold entryVal
  rw [assocGet_mapInsertWith]
  by_cases h : k' = k
  · simp only [h, if_pos rfl]
    cases hm : assocGet k m <;> simp [hg]
  · simp [h]

theorem entryVal_foldl (g : α → ℚ) (merge : α → α → α) (key : α → String)
    (hg : ∀ a b, g (merge a b) = g a + g b) :
    ∀ (rs : List α) (m : List (String × α)) (k : String),
      entryVal g (rs.foldl (fun acc r => mapInsertWith merge (key r) r acc) m) k =
        entryVal g m k + ((rs.filter fun r => decide (key r = k)).map g).sum := by
  intro rs
  induction rs with
  | nil => intro m k; simp
  | cons r rs ih =>
    intro m k
    simp only [List.foldl_cons]
    rw [ih, entryVal_mapInsertWith g merge hg]
    by_cases h : key r = k
    · simp [List.filter_cons, h]; ring
    · simp [List.filter_cons, h]

theorem entryVal_groupFold (g : α → ℚ) (merge : α → α → α) (key : α → String)
    (hg : ∀ a b, g (merge a b) = g a + g b) (rs : List α) (k : String) :
    entryVal g (groupFold key merge rs) k =
      ((rs.filter fun r => decide (key r = k)).map g).sum := by
  unfold groupFold
  rw [entryVal_foldl g merge key hg]
  simp [entryVal, assocGet]

theorem assocGet_mapInsertWith_eq_none (merge : α → α → α) (k k' : String)
    (v : α) (m : List (String × α)) :
    assocGet k (mapInsertWith merge k' v m) = none ↔
      k' ≠ k ∧ assocGet k m = none := by
  rw [assocGet_mapInsertWith]
  by_cases h : k' = k
  · simp only [h, if_pos rfl]
    cases assocGet k m <;> simp
  · simp [h]

theorem assocGet_foldl_eq_none (merge : α → α → α) (key : α → String) :
    ∀ (rs : List α) (m : List (String × α)) (k : String),
      assocGet k (rs.foldl (fun acc r => mapInsertWith merge (key r) r acc) m) = none ↔
        assocGet k m = none ∧ ∀ r ∈ rs, key r ≠ k := by
  intro rs
  induction rs with
  | nil => intro m k; simp
  | cons r rs ih =>
    intro m k
    simp only [List.foldl_cons]
    rw [ih, assocGet_mapInsertWith_eq_none]
    constructor
    · rintro ⟨⟨h1, h2⟩, h3⟩
      exact ⟨h2, by simpa [h1] using h3⟩
    · rintro ⟨h1, h2⟩
      exact ⟨⟨h2 r (by simp), h1⟩, fun x hx => h2 x (by simp [hx])⟩

theorem keys_mapInsertWith (merge : α → α → α) (k : String) (v : α)
    (m : List (String × α)) :
    (mapInsertWith merge k v m).map Prod.fst =
      if k ∈ m.map Prod.fst then m.map Prod.fst else m.map Prod.fst ++ [k] := by
  induction m with
  | nil => simp [mapInsertWith]
  | cons p rest ih =>
    obtain ⟨k₂, w⟩ := p
    by_cases h : k₂ = k
    · subst h; simp [mapInsertWith]
    · have hne : k ≠ k₂ := fun hh => h hh.symm
      by_cases hk : k ∈ rest.map Prod.fst <;>
        simp [mapInsertWith, h, hne, hk, ih]

theorem nodup_keys_mapInsertWith (merge : α → α → α) (k : String) (v : α)
    (m : List (String × α)) (hm : (m.map Prod.fst).Nodup) :
    ((mapInsertWith merge k v m).map Prod.fst).Nodup := by
  rw [keys_mapInsertWith]
  by_cases h : k ∈ m.map Prod.fst
  · simpa [h] using hm
  · rw [if_neg h]
    exact hm.append (List.nodup_singleton k) ((List.disjoint_singleton).mpr h)

theorem nodup_keys_foldl (merge : α → α → α) (key : α → String) :
    ∀ (rs : List α) (m : List (String × α)), (m.map Prod.fst).Nodup →
      ((rs.foldl (fun acc r => mapInsertWith merge (key r) r acc) m).map Prod.fst).Nodup := by
  intro rs
  induction rs with
  | nil => intro m hm; simpa using hm
  | cons r rs ih =>
    intro m hm
    simp only [List.foldl_cons]
    exact ih _ (nodup_keys_mapInsertWith merge (key r) r m hm)

theorem nodup_keys_groupFold (merge : α → α → α) (key : α → String)
    (rs : List α) : ((groupFold key merge rs).map Prod.fst).Nodup :=
  nodup_keys_foldl merge key rs [] (by simp)

theorem entry_key_mapInsertWith (merge : α → α → α) (key : α → String)
    (hkey : ∀ a b, key (merge a b) = key a) (k : String) (v : α)
    (hv : key v = k) (m : List (String × α))
    (hm : ∀ p ∈ m, key p.2 = p.1) :
    ∀ p ∈ mapInsertWith merge k v m, key p.2 = p.1 := by
  induction m with
  | nil =>
    intro p hp
    simp only [mapInsertWith, List.mem_singleton] at hp
    subst hp; simpa using hv
  | cons q rest ih =>
    obtain ⟨k₂, w⟩ := q
    intro p hp
    by_cases h : k₂ = k
    · simp only [mapInsertWith, if_pos h] at hp
      rcases List.mem_cons.mp hp with h1 | h1
      · subst h1
        have hw : key w = k₂ := hm (k₂, w) (by simp)
        simp [hkey, hw]
      · exact hm p (List.mem_cons_of_mem _ h1)
    · simp only [mapInsertWith, if_neg h] at hp
      rcases List.mem_cons.mp hp with h1 | h1
      · subst h1; exact hm (k₂, w) (by simp)
      · exact ih (fun q hq => hm q (List.mem_cons_of_mem _ hq)) p h1

theorem entry_key_groupFold (merge : α → α → α) (key : α → String)
    (hkey : ∀ a b, key (merge a b) = key a) (rs : List α) :
    ∀ p ∈ groupFold key merge rs, key p.2 = p.1 := by
  unfold groupFold
  suffices h : ∀ (rs : List α) (m : List (String × α)),
      (∀ p ∈ m, key p.2 = p.1) →
      ∀ p ∈ rs.foldl (fun acc r => mapInsertWith merge (key r) r acc) m,
        key p.2 = p.1 by
    exact h rs [] (by simp)
  intro rs
  induction rs with
  | nil => intro m hm; simpa using hm
  | cons r rs ih =>
    intro m hm
    simp only [List.foldl_cons]
    exact ih _ (entry_key_mapInsertWith merge key hkey (key r) r rfl m hm)

theorem mem_of_assocGet_eq_some {m : List (String × α)} {k : String} {v : α}
    (h : assocGet k m = some v) : (k, v) ∈ m := by
  induction m with
  | nil => simp [assocGet] at h
  | cons p rest ih =>
    obtain ⟨k₂, w⟩ := p
    by_cases h2 : k₂ = k
    · simp only [assocGet] at h
      rw [if_pos h2, Option.some.injEq] at h
      subst h; subst h2
      exact List.mem_cons_self _ _
    · simp only [assocGet] at h
      rw [if_neg h2] at h
      exact List.mem_cons_of_mem _ (ih h)

theorem assocGet_eq_some_of_mem {m : List (String × α)} {k : String} {v : α}
    (hm : (m.map Prod.fst).Nodup) (h : (k, v) ∈ m) : assocGet k m = some v := by
  induction m with
  | nil => simp at h
  | cons p rest ih =>
    obtain ⟨k₂, w⟩ := p
    simp only [List.map_cons, List.nodup_cons] at hm
    rcases List.mem_cons.mp h with h1 | h1
    · rw [Prod.mk.injEq] at h1
      obtain ⟨h2, h3⟩ := h1
      subst h2; subst h3
      simp [assocGet]
    · have hkne : k₂ ≠ k := by
        intro hh
        subst hh
        exact hm.1 (by simpa using List.mem_map_of_mem Prod.fst h1)
      simp only [assocGet, if_neg hkne]
      exact ih hm.2 h1

theorem proj_foldl (p : α → β) (merge : α → α → α) (key : α → String)
    (hp : ∀ a b, p (merge a b) = p a) :
    ∀ (rs : List α) (m : List (String × α)) (k : String) (v : α),
      assocGet k (rs.foldl (fun acc r => mapInsertWith merge (key r) r acc) m) = some v →
      (∀ w, assocGet k m = some w → p v = p w) ∧
      (assocGet k m = none →
        ∃ r0, rs.find? (fun r => decide (key r = k)) = some r0 ∧ p v = p r0) := by
  intro rs
  induction rs with
  | nil =>
    intro m k v h
    simp only [List.foldl_nil] at h
    refine ⟨fun w hw => ?_, fun hn => ?_⟩
    · rw [h] at hw
      injection hw with hw2
      rw [hw2]
    · rw [h] at hn; cases hn
  | cons r rs ih =>
    intro m k v h
    simp only [List.foldl_cons] at h
    have hih := ih (mapInsertWith merge (key r) r m) k v h
    by_cases hk : key r = k
    · constructor
      · intro w hw
        have : assocGet k (mapInsertWith merge (key r) r m) = some (merge w r) := by
          rw [assocGet_mapInsertWith, if_pos hk, hw]
        have h1 := hih.1 (merge w r) this
        rw [h1, hp]
      · intro hn
        have : assocGet k (mapInsertWith merge (key r) r m) = some r := by
          rw [assocGet_mapInsertWith, if_pos hk, hn]
        refine ⟨r, ?_, hih.1 r this⟩
        rw [List.find?_cons_of_pos _ (by simp [hk])]
    · have hget : assocGet k (mapInsertWith merge (key r) r m) = assocGet k m := by
        rw [assocGet_mapInsertWith, if_neg hk]
      constructor
      · intro w hw
        exact hih.1 w (by rw [hget]; exact hw)
      · intro hn
        obtain ⟨r0, hr0, hpr0⟩ := hih.2 (by rw [hget, hn])
        refine ⟨r0, ?_, hpr0⟩
        rw [List.find?_cons_of_neg _ (by simp [hk]), hr0]

theorem proj_groupFold (p : α → β) (merge : α → α → α) (key : α → String)
    (hp : ∀ a b, p (merge a b) = p a) (rs : List α) (k : String) (v : α)
    (h : assocGet k (groupFold key merge rs) = some v) :
    ∃ r0, rs.find? (fun r => decide (key r = k)) = some r0 ∧ p v = p r0 :=
  (proj_foldl p merge key hp rs [] k v h).2 rfl

theorem filter_eq_singleton_of_nodup_keys (f : α → String) (k : String) :
    ∀ (l : List α) (x : α), (l.map f).Nodup → x ∈ l → f x = k →
      l.filter (fun y => decide (f y = k)) = [x] := by
  intro l
  induction l with
  | nil => intro x _ hx; simp at hx
  | cons a l ih =>
    intro x hnd hx hxk
    simp only [List.map_cons, List.nodup_cons] at hnd
    rcases List.mem_cons.mp hx with h1 | h1
    · subst h1
      rw [List.filter_cons_of_pos (by simp [hxk])]
      have hrest : ∀ y ∈ l, ¬(f y = k) := by
        intro y hy hyk
        exact hnd.1 (hxk ▸ hyk ▸ List.mem_map_of_mem f hy)
      rw [List.filter_eq_nil_iff.mpr (by intro y hy; simpa using hrest y hy)]
    · have hak : ¬(f a = k) := by
        intro hh
        exact hnd.1 (hh ▸ hxk ▸ hxk.symm ▸ (hxk ▸ List.mem_map_of_mem f h1))
      rw [List.filter_cons_of_neg (by simp [hak])]
      exact ih x hnd.2 h1 hxk

/-! ## Lemmas on `Math.min` / `Math.max` over a spread list -/

theorem foldl_max_init_le (xs : List ℚ) : ∀ a : ℚ, a ≤ xs.foldl max a := by
  induction xs with
  | nil => intro a; simp
  | cons x xs ih => intro a; exact le_trans (le_max_left a x) (ih (max a x))

theorem le_foldl_max (xs : List ℚ) : ∀ (a v : ℚ), v ∈ xs → v ≤ xs.foldl max a := by
  induction xs with
  | nil => intro a v hv; simp at hv
  | cons x xs ih =>
    intro a v hv
    rcases List.mem_cons.mp hv with h | h
    · subst h
      exact le_trans (le_max_right a v) (foldl_max_init_le xs _)
    · exact ih _ v h

theorem le_jsMaxQ {l : List ℚ} {v : ℚ} (hv : v ∈ l) : v ≤ jsMaxQ l := by
  cases l with
  | nil => simp at hv
  | cons x xs =>
    rcases List.mem_cons.mp hv with h | h
    · subst h; exact foldl_max_init_le xs v
    · exact le_foldl_max xs x v h

theorem foldl_max_mem (xs : List ℚ) : ∀ a : ℚ, xs.foldl max a ∈ a :: xs := by
  induction xs with
  | nil => intro a; simp
  | cons x xs ih =>
    intro a
    simp only [List.foldl_cons]
    rcases List.mem_cons.mp (ih (max a x)) with h1 | h1
    · rcases max_choice a x with h2 | h2
      · rw [h1, h2]; simp
      · rw [h1, h2]; simp
    · exact List.mem_cons_of_mem _ (List.mem_cons_of_mem _ h1)

theorem jsMaxQ_mem {l : List ℚ} (h : l ≠ []) : jsMaxQ l ∈ l := by
  cases l with
  | nil => exact absurd rfl h
  | cons x xs => exact foldl_max_mem xs x

theorem foldl_min_le_init (xs : List ℚ) : ∀ a : ℚ, xs.foldl min a ≤ a := by
  induction xs with
  | nil => intro a; simp
  | cons x xs ih => intro a; exact le_trans (ih (min a x)) (min_le_left a x)

theorem foldl_min_le (xs : List ℚ) : ∀ (a v : ℚ), v ∈ xs → xs.foldl min a ≤ v := by
  induction xs with
  | nil => intro a v hv; simp at hv
  | cons x xs ih =>
    intro a v hv
    rcases List.mem_cons.mp hv with h | h
    · subst h
      exact le_trans (foldl_min_le_init xs _) (min_le_right a v)
    · exact ih _ v h

theorem jsMinQ_le {l : List ℚ} {v : ℚ} (hv : v ∈ l) : jsMinQ l ≤ v := by
  cases l with
  | nil => simp at hv
  | cons x xs =>
    rcases List.mem_cons.mp hv with h | h
    · subst h; exact foldl_min_le_init xs v
    · exact foldl_min_le xs x v h

theorem foldl_min_mem (xs : List ℚ) : ∀ a : ℚ, xs.foldl min a ∈ a :: xs := by
  induction xs with
  | nil => intro a; simp
  | cons x xs ih =>
    intro a
    simp only [List.foldl_cons]
    rcases List.mem_cons.mp (ih (min a x)) with h1 | h1
    · rcases min_choice a x with h2 | h2
      · rw [h1, h2]; simp
      · rw [h1, h2]; simp
    · exact List.mem_cons_of_mem _ (List.mem_cons_of_mem _ h1)

theorem jsMinQ_mem {l : List ℚ} (h : l ≠ []) : jsMinQ l ∈ l := by
  cases l with
  | nil => exact absurd rfl h
  | cons x xs => exact foldl_min_mem xs x

theorem jsMinQ_le_jsMaxQ {l : List ℚ} (h : l ≠ []) : jsMinQ l ≤ jsMaxQ l :=
  le_jsMaxQ (jsMinQ_mem h)

/-! ## Heap preservation lemmas -/

theorem hupd_ne (h : Heap α) (r : Nat) (v : α) {r' : Nat} (hne : r' ≠ r) :
    hupd h r v r' = h r' := by
  simp [hupd, hne]

theorem groupHeap_foldl_preserves (key : α → String) (merge : α → α → α)
    (c0 : Nat) :
    ∀ (refs : List Nat) (st : GroupHeapState α),
      c0 ≤ st.next → (∀ p ∈ st.keyMap, c0 ≤ p.2) →
      ∀ a, a < c0 →
        (refs.foldl (groupHeapStep key merge) st).heap a = st.heap a := by
  intro refs
  induction refs with
  | nil => intro st _ _ a _; rfl
  | cons ref refs ih =>
    intro st hnext hmap a ha
    simp only [List.foldl_cons]
    cases hg : assocGet (key (st.heap ref)) st.keyMap with
    | none =>
      have hstep : groupHeapStep key merge st ref =
          { heap := hupd st.heap st.next (st.heap ref)
            next := st.next + 1
            keyMap := st.keyMap ++ [(key (st.heap ref), st.next)] } := by
        simp [groupHeapStep, hg]
      rw [hstep]
      have hrec := ih
          { heap := hupd st.heap st.next (st.heap ref)
            next := st.next + 1
            keyMap := st.keyMap ++ [(key (st.heap ref), st.next)] }
          (Nat.le_succ_of_le hnext)
          (by intro p hp
              rcases List.mem_append.mp hp with h1 | h1
              · exact hmap p h1
              · simp only [List.mem_singleton] at h1
                rw [h1]
                exact hnext)
          a ha
      rw [hrec]
      exact hupd_ne st.heap st.next (st.heap ref) (Nat.ne_of_lt (lt_of_lt_of_le ha hnext))
    | some j =>
      have hj : c0 ≤ j := hmap _ (mem_of_assocGet_eq_some hg)
      have hstep : groupHeapStep key merge st ref =
          { st with heap := hupd st.heap j (merge (st.heap j) (st.heap ref)) } := by
        simp [groupHeapStep, hg]
      rw [hstep]
      have hrec := ih
          { st with heap := hupd st.heap j (merge (st.heap j) (st.heap ref)) }
          hnext hmap a ha
      rw [hrec]
      exact hupd_ne st.heap j _ (Nat.ne_of_lt (lt_of_lt_of_le ha hj))

theorem groupHeapRun_preserves (key : α → String) (merge : α → α → α)
    (h0 : Heap α) (c0 : Nat) (refs : List Nat) (a : Nat) (ha : a < c0) :
    (groupHeapRun key merge h0 c0 refs).heap a = h0 a := by
  unfold groupHeapRun
  exact groupHeap_foldl_preserves key merge c0 refs _ (le_refl c0) (by simp) a ha

theorem deviceHeapStep_refs (st : DeviceHeapState) (p : String × Nat) :
    (deviceHeapStep st p).mobileRef = st.mobileRef ∧
    (deviceHeapStep st p).desktopRef = st.desktopRef := by
  simp only [deviceHeapStep]
  split_ifs <;> exact ⟨rfl, rfl⟩

theorem deviceHeap_foldl_preserves (c0 : Nat) :
    ∀ (inputs : List (String × Nat)) (st : DeviceHeapState),
      c0 ≤ st.mobileRef → c0 ≤ st.desktopRef →
      ∀ a, a < c0 → (inputs.foldl deviceHeapStep st).heap a = st.heap a := by
  intro inputs
  induction inputs with
  | nil => intro st _ _ a _; rfl
  | cons p inputs ih =>
    intro st hm hd a ha
    simp only [List.foldl_cons]
    obtain ⟨hrm, hrd⟩ := deviceHeapStep_refs st p
    rw [ih _ (hrm ▸ hm) (hrd ▸ hd) a ha]
    simp only [deviceHeapStep]
    split_ifs
    · exact hupd_ne st.heap st.mobileRef _ (Nat.ne_of_lt (lt_of_lt_of_le ha hm))
    · exact hupd_ne st.heap st.desktopRef _ (Nat.ne_of_lt (lt_of_lt_of_le ha hd))
    · rfl

theorem deviceHeapRun_preserves (h0 : Heap DevicePerformance) (c0 : Nat)
    (inputs : List (String × Nat)) (a : Nat) (ha : a < c0) :
    (deviceHeapRun h0 c0 inputs).heap a = h0 a := by
  unfold deviceHeapRun
  rw [deviceHeap_foldl_preserves c0 inputs _ (le_refl c0) (Nat.le_succ_of_le (le_refl c0)) a ha]
  have h1 : a ≠ c0 + 1 := Nat.ne_of_lt (Nat.lt_succ_of_lt ha)
  have h2 : a ≠ c0 := Nat.ne_of_lt ha
  simp only [hupd_ne _ _ _ h1, hupd_ne _ _ _ h2]

/-! ## Device accumulation lemmas -/

theorem deviceFold_mobile (g : DevicePerformance → ℚ)
    (hg : ∀ agg d, g (addDeviceCounts agg d) = g agg + g d) :
    ∀ (rs : List (String × DevicePerformance)) (acc : DeviceAcc),
      g (rs.foldl deviceStep acc).mobile =
        g acc.mobile +
          ((rs.filter fun p => decide (p.2.device = "Mobile")).map fun p => g p.2).sum := by
  intro rs
  induction rs with
  | nil => intro acc; simp
  | cons p rs ih =>
    intro acc
    simp only [List.foldl_cons]
    rw [ih]
    by_cases h : p.2.device = "Mobile"
    · simp only [deviceStep, if_pos h, List.filter_cons, h]
      simp [hg]
      ring
    · by_cases h2 : p.2.device = "Desktop" <;>
        simp [deviceStep, h, h2, List.filter_cons]

theorem deviceFold_desktop (g : DevicePerformance → ℚ)
    (hg : ∀ agg d, g (addDeviceCounts agg d) = g agg + g d) :
    ∀ (rs : List (String × DevicePerformance)) (acc : DeviceAcc),
      g (rs.foldl deviceStep acc).desktop =
        g acc.desktop +
          ((rs.filter fun p => decide (p.2.device = "Desktop")).map fun p => g p.2).sum := by
  intro rs
  induction rs with
  | nil => intro acc; simp
  | cons p rs ih =>
    intro acc
    simp only [List.foldl_cons]
    rw [ih]
    by_cases h2 : p.2.device = "Desktop"
    · have h : ¬(p.2.device = "Mobile") := by
        rw [h2]; decide
      simp only [deviceStep, if_neg h, if_pos h2, List.filter_cons, h2]
      simp [hg]
      ring
    · by_cases h : p.2.device = "Mobile" <;>
        simp [deviceStep, h, h2, List.filter_cons]

/-! ## Plain-object accumulator lemmas -/

theorem objGet_objSet_self (m : List (String × ℚ)) (k : String) (v : ℚ) :
    objGet (objSet m k v) k = some v := by
  induction m with
  | nil => simp [objSet, objGet]
  | cons p rest ih =>
    obtain ⟨k₂, w⟩ := p
    by_cases h : k₂ = k
    · simp [objSet, objGet, h]
    · simp [objSet, objGet, h, ih]

theorem objGet_objSet_ne (m : List (String × ℚ)) (k : String) (v : ℚ)
    {k' : String} (h : k' ≠ k) : objGet (objSet m k v) k' = objGet m k' := by
  induction m with
  | nil =>
    have h2 : k ≠ k' := fun hh => h hh.symm
    simp [objSet, objGet, h2]
  | cons p rest ih =>
    obtain ⟨k₂, w⟩ := p
    by_cases h2 : k₂ = k
    · subst h2
      have h3 : k₂ ≠ k' := fun hh => h hh.symm
      simp [objSet, objGet, h3]
    · simp only [objSet, if_neg h2, objGet]
      by_cases h3 : k₂ = k' <;> simp [h3, ih]

/-! ## Weekly and regional rollup glue lemmas -/

theorem weekly_entry_sum (md : MarketingData) (k : String) (e : WeeklyPerformance)
    (h : assocGet k (weekMapOf md) = some e) (g : WeeklyPerformance → ℚ)
    (hg : ∀ a b, g (mergeWeekly a b) = g a + g b) :
    g e = (((allWeeklyRecords md).filter fun w => decide (w.week_start = k)).map g).sum := by
  have h2 : entryVal g (weekMapOf md) k = g e := by simp [entryVal, h]
  rw [← h2]
  unfold weekMapOf
  exact entryVal_groupFold g mergeWeekly (fun w => w.week_start) hg (allWeeklyRecords md) k

theorem weekly_entry_key (md : MarketingData) (k : String) (e : WeeklyPerformance)
    (h : assocGet k (weekMapOf md) = some e) : e.week_start = k := by
  have hm := mem_of_assocGet_eq_some h
  exact entry_key_groupFold mergeWeekly (fun w => w.week_start)
    (by intro a b; rfl) (allWeeklyRecords md) (k, e) hm

theorem weekly_entry_seed (md : MarketingData) (k : String) (e : WeeklyPerformance)
    (h : assocGet k (weekMapOf md) = some e) :
    ∃ r0, (allWeeklyRecords md).find? (fun w => decide (w.week_start = k)) = some r0 ∧
      e.week_end = r0.week_end := by
  unfold weekMapOf at h
  exact proj_groupFold (fun w => w.week_end) mergeWeekly (fun w => w.week_start)
    (by intro a b; rfl) (allWeeklyRecords md) k e h

theorem weekEntries_ws_nodup (md : MarketingData) :
    ((weekEntries md).map (fun w => w.week_start)).Nodup := by
  have h : (weekEntries md).map (fun w => w.week_start) =
      (weekMapOf md).map Prod.fst := by
    unfold weekEntries
    rw [List.map_map]
    apply List.map_congr_left
    intro p hp
    exact entry_key_groupFold mergeWeekly (fun w => w.week_start)
      (by intro a b; rfl) (allWeeklyRecords md) p hp
  rw [h]
  exact nodup_keys_groupFold mergeWeekly (fun w => w.week_start) (allWeeklyRecords md)

theorem mem_weekEntries_get (md : MarketingData) (e : WeeklyPerformance)
    (h : e ∈ weekEntries md) :
    assocGet e.week_start (weekMapOf md) = some e := by
  obtain ⟨p, hp, hpe⟩ := List.mem_map.mp h
  have hkey : p.2.week_start = p.1 :=
    entry_key_groupFold mergeWeekly (fun w => w.week_start)
      (by intro a b; rfl) (allWeeklyRecords md) p hp
  have hnd : ((weekMapOf md).map Prod.fst).Nodup :=
    nodup_keys_groupFold mergeWeekly (fun w => w.week_start) (allWeeklyRecords md)
  subst hpe
  rw [hkey]
  exact assocGet_eq_some_of_mem hnd (by simpa using hp)

theorem weekly_key_occurs (md : MarketingData) (k : String) (r : WeeklyPerformance)
    (hr : r ∈ allWeeklyRecords md) (hrk : r.week_start = k) :
    ∃ e, assocGet k (weekMapOf md) = some e := by
  cases hget : assocGet k (weekMapOf md) with
  | some e => exact ⟨e, rfl⟩
  | none =>
    exfalso
    unfold weekMapOf groupFold at hget
    have := (assocGet_foldl_eq_none mergeWeekly (fun w => w.week_start)
      (allWeeklyRecords md) [] k).mp hget
    exact this.2 r hr hrk

theorem regional_entry_sum (md : MarketingData) (k : String) (e : RegionalPerformance)
    (h : assocGet k (regionMapOf md) = some e) (g : RegionalPerformance → ℚ)
    (hg : ∀ a b, g (mergeRegional a b) = g a + g b) :
    g e = (((allRegionalRecords md).filter fun x => decide (x.region = k)).map g).sum := by
  have h2 : entryVal g (regionMapOf md) k = g e := by simp [entryVal, h]
  rw [← h2]
  unfold regionMapOf
  exact entryVal_groupFold g mergeRegional (fun x => x.region) hg (allRegionalRecords md) k

theorem regional_entry_key (md : MarketingData) (k : String) (e : RegionalPerformance)
    (h : assocGet k (regionMapOf md) = some e) : e.region = k := by
  have hm := mem_of_assocGet_eq_some h
  exact entry_key_groupFold mergeRegional (fun x => x.region)
    (by intro a b; rfl) (allRegionalRecords md) (k, e) hm

theorem regionEntries_key_nodup (md : MarketingData) :
    ((regionEntries md).map (fun x => x.region)).Nodup := by
  have h : (regionEntries md).map (fun x => x.region) =
      (regionMapOf md).map Prod.fst := by
    unfold regionEntries
    rw [List.map_map]
    apply List.map_congr_left
    intro p hp
    exact entry_key_groupFold mergeRegional (fun x => x.region)
      (by intro a b; rfl) (allRegionalRecords md) p hp
  rw [h]
  exact nodup_keys_groupFold mergeRegional (fun x => x.region) (allRegionalRecords md)

theorem mem_regionEntries_get (md : MarketingData) (e : RegionalPerformance)
    (h : e ∈ regionEntries md) :
    assocGet e.region (regionMapOf md) = some e := by
  obtain ⟨p, hp, hpe⟩ := List.mem_map.mp h
  have hkey : p.2.region = p.1 :=
    entry_key_groupFold mergeRegional (fun x => x.region)
      (by intro a b; rfl) (allRegionalRecords md) p hp
  have hnd : ((regionMapOf md).map Prod.fst).Nodup :=
    nodup_keys_groupFold mergeRegional (fun x => x.region) (allRegionalRecords md)
  subst hpe
  rw [hkey]
  exact assocGet_eq_some_of_mem hnd (by simpa using hp)

theorem regional_key_occurs (md : MarketingData) (k : String) (r : RegionalPerformance)
    (hr : r ∈ allRegionalRecords md) (hrk : r.region = k) :
    ∃ e, assocGet k (regionMapOf md) = some e := by
  cases hget : assocGet k (regionMapOf md) with
  | some e => exact ⟨e, rfl⟩
  | none =>
    exfalso
    unfold regionMapOf groupFold at hget
    have := (assocGet_foldl_eq_none mergeRegional (fun x => x.region)
      (allRegionalRecords md) [] k).mp hget
    exact this.2 r hr hrk

/-! ## Claim theorems -/

/-- Claim C3: for every campaign and slice, `demoSpend` and `demoRevenue`
are the proportional allocations `campaign.spend × (percentage / 100)` and
`campaign.revenue × (percentage / 100)`; summed over all of a campaign's
slices they equal `campaign.spend × (Σ percentage) / 100` (resp. revenue),
and exactly `campaign.spend` when the percentages sum to 100. -/
theorem demographic_allocation_sums (c : Campaign) :
    (∀ d ∈ c.demographic_breakdown.getD [],
        demoSpend c d = c.spend * (d.percentage_of_audience / 100) ∧
        demoRevenue c d = c.revenue * (d.percentage_of_audience / 100)) ∧
    ((c.demographic_breakdown.getD []).map (demoSpend c)).sum =
      c.spend * ((c.demographic_breakdown.getD []).map
        (fun d => d.percentage_of_audience)).sum / 100 ∧
    ((c.demographic_breakdown.getD []).map (demoRevenue c)).sum =
      c.revenue * ((c.demographic_breakdown.getD []).map
        (fun d => d.percentage_of_audience)).sum / 100 ∧
    (((c.demographic_breakdown.getD []).map
        (fun d => d.percentage_of_audience)).sum = 100 →
      ((c.demographic_breakdown.getD []).map (demoSpend c)).sum = c.spend ∧
      ((c.demographic_breakdown.getD []).map (demoRevenue c)).sum = c.revenue) := by
  have hs : ((c.demographic_breakdown.getD []).map (demoSpend c)).sum =
      c.spend * ((c.demographic_breakdown.getD []).map
        (fun d => d.percentage_of_audience)).sum / 100 := by
    have h1 : (c.demographic_breakdown.getD []).map (demoSpend c) =
        (c.demographic_breakdown.getD []).map
          (fun d => c.spend / 100 * d.percentage_of_audience) := by
      apply List.map_congr_left
      intro d _
      unfold demoSpend
      ring
    rw [h1, List.sum_map_mul_left]
    ring
  have hr : ((c.demographic_breakdown.getD []).map (demoRevenue c)).sum =
      c.revenue * ((c.demographic_breakdown.getD []).map
        (fun d => d.percentage_of_audience)).sum / 100 := by
    have h1 : (c.demographic_breakdown.getD []).map (demoRevenue c) =
        (c.demographic_breakdown.getD []).map
          (fun d => c.revenue / 100 * d.percentage_of_audience) := by
      apply List.map_congr_left
      intro d _
      unfold demoRevenue
      ring
    rw [h1, List.sum_map_mul_left]
    ring
  refine ⟨fun d _ => ⟨rfl, rfl⟩, hs, hr, fun h100 => ⟨?_, ?_⟩⟩
  · rw [hs, h100]; ring
  · rw [hr, h100]; ring

/-- Witness for C3 at a concrete campaign whose slice percentages sum to
100: the allocated spend adds back up to the campaign's spend. -/
theorem demographic_allocation_sums_witness :
    ((exC3.demographic_breakdown.getD []).map
      (fun d => d.percentage_of_audience)).sum = 100 ∧
    ((exC3.demographic_breakdown.getD []).map (demoSpend exC3)).sum = exC3.spend := by
  have h100 : ((exC3.demographic_breakdown.getD []).map
      (fun d => d.percentage_of_audience)).sum = 100 := by
    norm_num [exC3, exSliceM, exSliceF]
  exact ⟨h100, ((demographic_allocation_sums exC3).2.2.2 h100).1⟩

/-- Claim C4: a slice whose gender is neither "Male" nor "Female" leaves
all six gender totals and both per-gender performance sequences unchanged,
yet its `demoSpend` and `demoRevenue` are still accumulated into the
age-group-keyed spend and revenue mappings (on top of the base the source's
falsy-guarded initialization leaves in place), and all other age-group keys
are untouched.  `processSlice` is a total function, so processing such a
slice cannot fail. -/
theorem demographic_other_gender (c : Campaign) (st : AggregatedDemographicData)
    (d : DemographicBreakdown) (hM : d.gender ≠ "Male") (hF : d.gender ≠ "Female") :
    (processSlice c st d).maleClicks = st.maleClicks ∧
    (processSlice c st d).maleSpend = st.maleSpend ∧
    (processSlice c st d).maleRevenue = st.maleRevenue ∧
    (processSlice c st d).femaleClicks = st.femaleClicks ∧
    (processSlice c st d).femaleSpend = st.femaleSpend ∧
    (processSlice c st d).femaleRevenue = st.femaleRevenue ∧
    (processSlice c st d).maleAgeGroupPerformance = st.maleAgeGroupPerformance ∧
    (processSlice c st d).femaleAgeGroupPerformance = st.femaleAgeGroupPerformance ∧
    objGet (processSlice c st d).ageGroupSpend d.age_group =
      some ((if jsFalsyQ (objGet st.ageGroupSpend d.age_group) then 0
             else (objGet st.ageGroupSpend d.age_group).getD 0) + demoSpend c d) ∧
    objGet (processSlice c st d).ageGroupRevenue d.age_group =
      some ((if jsFalsyQ (objGet st.ageGroupSpend d.age_group) then 0
             else (objGet st.ageGroupRevenue d.age_group).getD 0) + demoRevenue c d) ∧
    (∀ k, k ≠ d.age_group →
      objGet (processSlice c st d).ageGroupSpend k = objGet st.ageGroupSpend k ∧
      objGet (processSlice c st d).ageGroupRevenue k = objGet st.ageGroupRevenue k) := by
  have hstep : processSlice c st d =
      { st with
        ageGroupSpend := objSet st.ageGroupSpend d.age_group
          ((if jsFalsyQ (objGet st.ageGroupSpend d.age_group) then 0
            else (objGet st.ageGroupSpend d.age_group).getD 0) + demoSpend c d)
        ageGroupRevenue := objSet st.ageGroupRevenue d.age_group
          ((if jsFalsyQ (objGet st.ageGroupSpend d.age_group) then 0
            else (objGet st.ageGroupRevenue d.age_group).getD 0) + demoRevenue c d) } := by
    simp only [processSlice, if_neg hM, if_neg hF]
  rw [hstep]
  refine ⟨rfl, rfl, rfl, rfl, rfl, rfl, rfl, rfl, ?_, ?_, ?_⟩
  · exact objGet_objSet_self ..
  · exact objGet_objSet_self ..
  · intro k hk
    exact ⟨objGet_objSet_ne _ _ _ hk, objGet_objSet_ne _ _ _ hk⟩

/-- Witness for C4 at a concrete "Unknown"-gender slice: the male totals
stay at their initial value while the slice's allocated spend (1000 × 10%)
lands in the age-group mapping. -/
theorem demographic_other_gender_witness :
    (processSlice exC3 demoInit exSliceOther).maleClicks = demoInit.maleClicks ∧
    objGet (processSlice exC3 demoInit exSliceOther).ageGroupSpend "25-34" =
      some 100 := by
  have h := demographic_other_gender exC3 demoInit exSliceOther
    (by decide) (by decide)
  refine ⟨h.1, ?_⟩
  have h9 := h.2.2.2.2.2.2.2.2.1
  have hk : exSliceOther.age_group = "25-34" := by decide
  rw [hk] at h9
  rw [h9]
  norm_num [demoInit, objGet, jsFalsyQ, demoSpend, exC3, exSliceOther]

/-- Claim C2: the weekly rollup has exactly one entry per distinct
`week_start` key; that entry carries the sums of
impressions/clicks/conversions/spend/revenue over all records with that
key and inherits `week_end` from the first such record (the seeded copy);
the output is sorted ascending by the chronological value of `week_start`
(an arbitrary `getTime`), and ties keep encounter order. -/
theorem weekly_rollup_merge (getTime : String → ℚ) (md : MarketingData) :
    (∀ k r, r ∈ allWeeklyRecords md → r.week_start = k →
      ∃ e, (weeklyData getTime md).filter (fun w => decide (w.week_start = k)) = [e] ∧
        e.week_start = k ∧
        e.impressions = (((allWeeklyRecords md).filter fun w =>
          decide (w.week_start = k)).map (fun w => w.impressions)).sum ∧
        e.clicks = (((allWeeklyRecords md).filter fun w =>
          decide (w.week_start = k)).map (fun w => w.clicks)).sum ∧
        e.conversions = (((allWeeklyRecords md).filter fun w =>
          decide (w.week_start = k)).map (fun w => w.conversions)).sum ∧
        e.spend = (((allWeeklyRecords md).filter fun w =>
          decide (w.week_start = k)).map (fun w => w.spend)).sum ∧
        e.revenue = (((allWeeklyRecords md).filter fun w =>
          decide (w.week_start = k)).map (fun w => w.revenue)).sum ∧
        (∃ r0, (allWeeklyRecords md).find? (fun w => decide (w.week_start = k)) = some r0 ∧
          e.week_end = r0.week_end)) ∧
    (∀ e ∈ weeklyData getTime md, ∃ r ∈ allWeeklyRecords md, r.week_start = e.week_start) ∧
    (weeklyData getTime md).Pairwise
      (fun a b => getTime a.week_start ≤ getTime b.week_start) ∧
    (∀ a b, [a, b].Sublist (weekEntries md) →
      getTime a.week_start = getTime b.week_start →
      [a, b].Sublist (weeklyData getTime md)) := by
  have htrans : ∀ a b c : WeeklyPerformance,
      decide (getTime a.week_start ≤ getTime b.week_start) = true →
      decide (getTime b.week_start ≤ getTime c.week_start) = true →
      decide (getTime a.week_start ≤ getTime c.week_start) = true := by
    intro a b c hab hbc
    rw [decide_eq_true_eq] at *
    exact le_trans hab hbc
  have htotal : ∀ a b : WeeklyPerformance,
      (decide (getTime a.week_start ≤ getTime b.week_start) ||
       decide (getTime b.week_start ≤ getTime a.week_start)) = true := by
    intro a b
    rw [Bool.or_eq_true]
    rcases le_total (getTime a.week_start) (getTime b.week_start) with h | h
    · exact Or.inl (decide_eq_true h)
    · exact Or.inr (decide_eq_true h)
  have hperm : List.Perm (weeklyData getTime md) (weekEntries md) := by
    unfold weeklyData
    exact List.mergeSort_perm _ _
  have hout_nodup : ((weeklyData getTime md).map (fun w => w.week_start)).Nodup :=
    ((hperm.map (fun w => w.week_start)).nodup_iff).mpr (weekEntries_ws_nodup md)
  refine ⟨?_, ?_, ?_, ?_⟩
  · intro k r hr hrk
    obtain ⟨e, hget⟩ := weekly_key_occurs md k r hr hrk
    have hek : e.week_start = k := weekly_entry_key md k e hget
    have hmem_entries : e ∈ weekEntries md := by
      unfold weekEntries
      exact List.mem_map_of_mem Prod.snd (mem_of_assocGet_eq_some hget)
    have hmem_out : e ∈ weeklyData getTime md := hperm.mem_iff.mpr hmem_entries
    refine ⟨e, ?_, hek, ?_, ?_, ?_, ?_, ?_, ?_⟩
    · exact filter_eq_singleton_of_nodup_keys (fun w => w.week_start) k
        (weeklyData getTime md) e hout_nodup hmem_out hek
    · exact weekly_entry_sum md k e hget (fun w => w.impressions) (by intro a b; rfl)
    · exact weekly_entry_sum md k e hget (fun w => w.clicks) (by intro a b; rfl)
    · exact weekly_entry_sum md k e hget (fun w => w.conversions) (by intro a b; rfl)
    · exact weekly_entry_sum md k e hget (fun w => w.spend) (by intro a b; rfl)
    · exact weekly_entry_sum md k e hget (fun w => w.revenue) (by intro a b; rfl)
    · exact weekly_entry_seed md k e hget
  · intro e he
    have hmem_entries : e ∈ weekEntries md := hperm.mem_iff.mp he
    have hget := mem_weekEntries_get md e hmem_entries
    by_contra hcon
    push_neg at hcon
    have hnone : assocGet e.week_start (weekMapOf md) = none := by
      unfold weekMapOf groupFold
      apply (assocGet_foldl_eq_none mergeWeekly (fun w => w.week_start)
        (allWeeklyRecords md) [] e.week_start).mpr
      exact ⟨rfl, fun r hr => hcon r hr⟩
    rw [hget] at hnone
    cases hnone
  · have hsorted := List.sorted_mergeSort htrans htotal (weekEntries md)
    have : (weeklyData getTime md).Pairwise
        (fun a b => decide (getTime a.week_start ≤ getTime b.week_start) = true) := hsorted
    exact this.imp (fun h => of_decide_eq_true h)
  · intro a b hsub heq
    unfold weeklyData
    exact List.pair_sublist_mergeSort htrans htotal
      (decide_eq_true (le_of_eq heq)) hsub

/-- Witness for C2: two campaigns both reporting week 2024-01-01, with 10
and 20 clicks, merge into a single entry with 30 clicks. -/
theorem weekly_rollup_merge_witness :
    ∃ e, (weeklyData wTime exWeeklyMD).filter
        (fun w => decide (w.week_start = "2024-01-01")) = [e] ∧
      e.clicks = 30 := by
  have hmem : exWeek1 ∈ allWeeklyRecords exWeeklyMD := by
    simp [allWeeklyRecords, exWeeklyMD, weeklyOnlyCampaign]
  obtain ⟨e, hfilter, _, _, hclicks, _⟩ :=
    (weekly_rollup_merge wTime exWeeklyMD).1 "2024-01-01" exWeek1 hmem rfl
  refine ⟨e, hfilter, ?_⟩
  rw [hclicks]
  norm_num [allWeeklyRecords, exWeeklyMD, weeklyOnlyCampaign, exWeek1, exWeek2]

/-- Claim C1: the regional rollup groups records by exact region key with
one output entry per occurring key, each entry carrying the sums of
impressions/clicks/conversions/spend/revenue over its key's records; and
every merge step stores rates that are exactly the guarded ratios
recomputed from the running sums (0 on a zero denominator, for well-formed
nonnegative records), never an average of per-record rates. -/
theorem regional_rollup_recompute (md : MarketingData) :
    (∀ e ∈ regionalData md,
      e.impressions = (((allRegionalRecords md).filter fun x =>
        decide (x.region = e.region)).map (fun x => x.impressions)).sum ∧
      e.clicks = (((allRegionalRecords md).filter fun x =>
        decide (x.region = e.region)).map (fun x => x.clicks)).sum ∧
      e.conversions = (((allRegionalRecords md).filter fun x =>
        decide (x.region = e.region)).map (fun x => x.conversions)).sum ∧
      e.spend = (((allRegionalRecords md).filter fun x =>
        decide (x.region = e.region)).map (fun x => x.spend)).sum ∧
      e.revenue = (((allRegionalRecords md).filter fun x =>
        decide (x.region = e.region)).map (fun x => x.revenue)).sum) ∧
    (∀ k r, r ∈ allRegionalRecords md → r.region = k →
      ∃ e, (regionalData md).filter (fun x => decide (x.region = k)) = [e]) ∧
    (∀ existing incoming : RegionalPerformance,
      RegionalNonneg existing → RegionalNonneg incoming →
      (mergeRegional existing incoming).impressions =
        existing.impressions + incoming.impressions ∧
      (mergeRegional existing incoming).clicks = existing.clicks + incoming.clicks ∧
      (mergeRegional existing incoming).conversions =
        existing.conversions + incoming.conversions ∧
      (mergeRegional existing incoming).spend = existing.spend + incoming.spend ∧
      (mergeRegional existing incoming).revenue = existing.revenue + incoming.revenue ∧
      ((mergeRegional existing incoming).impressions = 0 →
        (mergeRegional existing incoming).ctr = 0) ∧
      ((mergeRegional existing incoming).impressions ≠ 0 →
        (mergeRegional existing incoming).ctr =
          (mergeRegional existing incoming).clicks /
            (mergeRegional existing incoming).impressions * 100) ∧
      ((mergeRegional existing incoming).clicks = 0 →
        (mergeRegional existing incoming).conversion_rate = 0 ∧
        (mergeRegional existing incoming).cpc = 0) ∧
      ((mergeRegional existing incoming).clicks ≠ 0 →
        (mergeRegional existing incoming).conversion_rate =
          (mergeRegional existing incoming).conversions /
            (mergeRegional existing incoming).clicks * 100 ∧
        (mergeRegional existing incoming).cpc =
          (mergeRegional existing incoming).spend /
            (mergeRegional existing incoming).clicks) ∧
      ((mergeRegional existing incoming).conversions = 0 →
        (mergeRegional existing incoming).cpa = 0) ∧
      ((mergeRegional existing incoming).conversions ≠ 0 →
        (mergeRegional existing incoming).cpa =
          (mergeRegional existing incoming).spend /
            (mergeRegional existing incoming).conversions) ∧
      ((mergeRegional existing incoming).spend = 0 →
        (mergeRegional existing incoming).roas = 0) ∧
      ((mergeRegional existing incoming).spend ≠ 0 →
        (mergeRegional existing incoming).roas =
          (mergeRegional existing incoming).revenue /
            (mergeRegional existing incoming).spend)) := by
  have hperm : List.Perm (regionalData md) (regionEntries md) := by
    unfold regionalData
    exact List.mergeSort_perm _ _
  refine ⟨?_, ?_, ?_⟩
  · intro e he
    have hmem_entries : e ∈ regionEntries md := hperm.mem_iff.mp he
    have hget := mem_regionEntries_get md e hmem_entries
    exact ⟨regional_entry_sum md e.region e hget (fun x => x.impressions) (by intro a b; rfl),
      regional_entry_sum md e.region e hget (fun x => x.clicks) (by intro a b; rfl),
      regional_entry_sum md e.region e hget (fun x => x.conversions) (by intro a b; rfl),
      regional_entry_sum md e.region e hget (fun x => x.spend) (by intro a b; rfl),
      regional_entry_sum md e.region e hget (fun x => x.revenue) (by intro a b; rfl)⟩
  · intro k r hr hrk
    obtain ⟨e, hget⟩ := regional_key_occurs md k r hr hrk
    have hek : e.region = k := regional_entry_key md k e hget
    have hmem_entries : e ∈ regionEntries md := by
      unfold regionEntries
      exact List.mem_map_of_mem Prod.snd (mem_of_assocGet_eq_some hget)
    have hmem_out : e ∈ regionalData md := hperm.mem_iff.mpr hmem_entries
    have hout_nodup : ((regionalData md).map (fun x => x.region)).Nodup :=
      ((hperm.map (fun x => x.region)).nodup_iff).mpr (regionEntries_key_nodup md)
    exact ⟨e, filter_eq_singleton_of_nodup_keys (fun x => x.region) k
      (regionalData md) e hout_nodup hmem_out hek⟩
  · intro existing incoming hex hinc
    have himp : (mergeRegional existing incoming).impressions =
        existing.impressions + incoming.impressions := rfl
    have hclk : (mergeRegional existing incoming).clicks =
        existing.clicks + incoming.clicks := rfl
    have hcnv : (mergeRegional existing incoming).conversions =
        existing.conversions + incoming.conversions := rfl
    have hsp : (mergeRegional existing incoming).spend =
        existing.spend + incoming.spend := rfl
    have hrev : (mergeRegional existing incoming).revenue =
        existing.revenue + incoming.revenue := rfl
    have pos_of_ne : ∀ x y : ℚ, 0 ≤ x → 0 ≤ y → x + y ≠ 0 → 0 < x + y := by
      intro x y hx hy hne
      rcases lt_or_eq_of_le (add_nonneg hx hy) with h | h
      · exact h
      · exact absurd h.symm hne
    refine ⟨himp, hclk, hcnv, hsp, hrev, ?_, ?_, ?_, ?_, ?_, ?_, ?_, ?_⟩
    · intro h0
      rw [himp] at h0
      have : ¬(0 < existing.impressions + incoming.impressions) := by
        rw [h0]; exact lt_irrefl 0
      simp only [mergeRegional, if_neg this]
    · intro hne
      rw [himp] at hne
      have hpos := pos_of_ne _ _ hex.1 hinc.1 hne
      simp only [mergeRegional, if_pos hpos]
    · intro h0
      rw [hclk] at h0
      have : ¬(0 < existing.clicks + incoming.clicks) := by
        rw [h0]; exact lt_irrefl 0
      constructor <;> simp only [mergeRegional, if_neg this]
    · intro hne
      rw [hclk] at hne
      have hpos := pos_of_ne _ _ hex.2.1 hinc.2.1 hne
      constructor <;> simp only [mergeRegional, if_pos hpos]
    · intro h0
      rw [hcnv] at h0
      have : ¬(0 < existing.conversions + incoming.conversions) := by
        rw [h0]; exact lt_irrefl 0
      simp only [mergeRegional, if_neg this]
    · intro hne
      rw [hcnv] at hne
      have hpos := pos_of_ne _ _ hex.2.2.1 hinc.2.2.1 hne
      simp only [mergeRegional, if_pos hpos]
    · intro h0
      rw [hsp] at h0
      have : ¬(0 < existing.spend + incoming.spend) := by
        rw [h0]; exact lt_irrefl 0
      simp only [mergeRegional, if_neg this]
    · intro hne
      rw [hsp] at hne
      have hpos := pos_of_ne _ _ hex.2.2.2 hinc.2.2.2 hne
      simp only [mergeRegional, if_pos hpos]

/-- Witness for C1: merging the Dubai records (spend 100, revenue 200) and
(spend 50, revenue 50) yields `roas = 250 / 150`, not the average
`(2.0 + 1.0) / 2` of the per-record rates. -/
theorem regional_rollup_recompute_witness :
    (mergeRegional exRegionA exRegionB).roas = 250 / 150 ∧
    (exRegionA.roas + exRegionB.roas) / 2 ≠ 250 / 150 := by
  have hA : RegionalNonneg exRegionA := by
    refine ⟨?_, ?_, ?_, ?_⟩ <;> norm_num [exRegionA]
  have hB : RegionalNonneg exRegionB := by
    refine ⟨?_, ?_, ?_, ?_⟩ <;> norm_num [exRegionB]
  obtain ⟨himp, hclk, hcnv, hsp, hrev, hc0, hcr, hk0, hkr, ha0, har, hr0, hrr⟩ :=
    (regional_rollup_recompute exEmptyMD).2.2 exRegionA exRegionB hA hB
  have hspend : (mergeRegional exRegionA exRegionB).spend = 150 := by
    rw [hsp]; norm_num [exRegionA, exRegionB]
  have hrevenue : (mergeRegional exRegionA exRegionB).revenue = 250 := by
    rw [hrev]; norm_num [exRegionA, exRegionB]
  constructor
  · rw [hrr (by rw [hspend]; norm_num), hspend, hrevenue]
  · norm_num [exRegionA, exRegionB]

/-- Claim C5: each device bucket's `ctr` and `conversion_rate` are the
guarded ratios of the accumulated sums over exactly the records of that
device (0 on a zero denominator, for well-formed nonnegative records), and
on the concrete unequal-size input `exMD5` the recomputed mobile `ctr` (5)
differs from the arithmetic mean (25) of the per-record `ctr` fields. -/
theorem device_rollup_recompute (md : MarketingData) (hnn : DeviceDataNonneg md) :
    (((((allDeviceRecords md).filter fun p => decide (p.2.device = "Mobile")).map
        (fun p => p.2.impressions)).sum = 0 → (deviceData md).mobileData.ctr = 0) ∧
     ((((allDeviceRecords md).filter fun p => decide (p.2.device = "Mobile")).map
        (fun p => p.2.impressions)).sum ≠ 0 →
      (deviceData md).mobileData.ctr =
        ((((allDeviceRecords md).filter fun p => decide (p.2.device = "Mobile")).map
          (fun p => p.2.clicks)).sum /
         (((allDeviceRecords md).filter fun p => decide (p.2.device = "Mobile")).map
          (fun p => p.2.impressions)).sum) * 100) ∧
     ((((allDeviceRecords md).filter fun p => decide (p.2.device = "Mobile")).map
        (fun p => p.2.clicks)).sum = 0 → (deviceData md).mobileData.conversion_rate = 0) ∧
     ((((allDeviceRecords md).filter fun p => decide (p.2.device = "Mobile")).map
        (fun p => p.2.clicks)).sum ≠ 0 →
      (deviceData md).mobileData.conversion_rate =
        ((((allDeviceRecords md).filter fun p => decide (p.2.device = "Mobile")).map
          (fun p => p.2.conversions)).sum /
         (((allDeviceRecords md).filter fun p => decide (p.2.device = "Mobile")).map
          (fun p => p.2.clicks)).sum) * 100)) ∧
    (((((allDeviceRecords md).filter fun p => decide (p.2.device = "Desktop")).map
        (fun p => p.2.impressions)).sum = 0 → (deviceData md).desktopData.ctr = 0) ∧
     ((((allDeviceRecords md).filter fun p => decide (p.2.device = "Desktop")).map
        (fun p => p.2.impressions)).sum ≠ 0 →
      (deviceData md).desktopData.ctr =
        ((((allDeviceRecords md).filter fun p => decide (p.2.device = "Desktop")).map
          (fun p => p.2.clicks)).sum /
         (((allDeviceRecords md).filter fun p => decide (p.2.device = "Desktop")).map
          (fun p => p.2.impressions)).sum) * 100) ∧
     ((((allDeviceRecords md).filter fun p => decide (p.2.device = "Desktop")).map
        (fun p => p.2.clicks)).sum = 0 → (deviceData md).desktopData.conversion_rate = 0) ∧
     ((((allDeviceRecords md).filter fun p => decide (p.2.device = "Desktop")).map
        (fun p => p.2.clicks)).sum ≠ 0 →
      (deviceData md).desktopData.conversion_rate =
        ((((allDeviceRecords md).filter fun p => decide (p.2.device = "Desktop")).map
          (fun p => p.2.conversions)).sum /
         (((allDeviceRecords md).filter fun p => decide (p.2.device = "Desktop")).map
          (fun p => p.2.clicks)).sum) * 100)) ∧
    ((deviceData exMD5).mobileData.ctr = 5 ∧
     (exDev1.ctr + exDev2.ctr) / 2 = 25 ∧
     (deviceData exMD5).mobileData.ctr ≠ (exDev1.ctr + exDev2.ctr) / 2) := by
  set acc := (allDeviceRecords md).foldl deviceStep
      { mobile := mobileInit, desktop := desktopInit, rows := [] } with hacc
  have himp : acc.mobile.impressions =
      (((allDeviceRecords md).filter fun p => decide (p.2.device = "Mobile")).map
        (fun p => p.2.impressions)).sum := by
    have h := deviceFold_mobile (fun x => x.impressions) (by intro a b; rfl)
      (allDeviceRecords md)
      { mobile := mobileInit, desktop := desktopInit, rows := [] }
    simpa [mobileInit] using h
  have hclk : acc.mobile.clicks =
      (((allDeviceRecords md).filter fun p => decide (p.2.device = "Mobile")).map
        (fun p => p.2.clicks)).sum := by
    have h := deviceFold_mobile (fun x => x.clicks) (by intro a b; rfl)
      (allDeviceRecords md)
      { mobile := mobileInit, desktop := desktopInit, rows := [] }
    simpa [mobileInit] using h
  have hcnv : acc.mobile.conversions =
      (((allDeviceRecords md).filter fun p => decide (p.2.device = "Mobile")).map
        (fun p => p.2.conversions)).sum := by
    have h := deviceFold_mobile (fun x => x.conversions) (by intro a b; rfl)
      (allDeviceRecords md)
      { mobile := mobileInit, desktop := desktopInit, rows := [] }
    simpa [mobileInit] using h
  have dimp : acc.desktop.impressions =
      (((allDeviceRecords md).filter fun p => decide (p.2.device = "Desktop")).map
        (fun p => p.2.impressions)).sum := by
    have h := deviceFold_desktop (fun x => x.impressions) (by intro a b; rfl)
      (allDeviceRecords md)
      { mobile := mobileInit, desktop := desktopInit, rows := [] }
    simpa [desktopInit] using h
  have dclk : acc.desktop.clicks =
      (((allDeviceRecords md).filter fun p => decide (p.2.device = "Desktop")).map
        (fun p => p.2.clicks)).sum := by
    have h := deviceFold_desktop (fun x => x.clicks) (by intro a b; rfl)
      (allDeviceRecords md)
      { mobile := mobileInit, desktop := desktopInit, rows := [] }
    simpa [desktopInit] using h
  have dcnv : acc.desktop.conversions =
      (((allDeviceRecords md).filter fun p => decide (p.2.device = "Desktop")).map
        (fun p => p.2.conversions)).sum := by
    have h := deviceFold_desktop (fun x => x.conversions) (by intro a b; rfl)
      (allDeviceRecords md)
      { mobile := mobileInit, desktop := desktopInit, rows := [] }
    simpa [desktopInit] using h
  have hnn_sum : ∀ (dev : String) (g : DevicePerformance → ℚ),
      (∀ d, DeviceNonneg d → 0 ≤ g d) →
      0 ≤ (((allDeviceRecords md).filter fun p => decide (p.2.device = dev)).map
        (fun p => g p.2)).sum := by
    intro dev g hgd
    apply List.sum_nonneg
    intro x hx
    obtain ⟨p, hp, hpx⟩ := List.mem_map.mp hx
    rw [← hpx]
    exact hgd p.2 (hnn p (List.mem_of_mem_filter hp))
  have hctrm : (deviceData md).mobileData.ctr =
      if 0 < acc.mobile.impressions then
        acc.mobile.clicks / acc.mobile.impressions * 100 else 0 := rfl
  have hcrm : (deviceData md).mobileData.conversion_rate =
      if 0 < acc.mobile.clicks then
        acc.mobile.conversions / acc.mobile.clicks * 100 else 0 := rfl
  have hctrd : (deviceData md).desktopData.ctr =
      if 0 < acc.desktop.impressions then
        acc.desktop.clicks / acc.desktop.impressions * 100 else 0 := rfl
  have hcrd : (deviceData md).desktopData.conversion_rate =
      if 0 < acc.desktop.clicks then
        acc.desktop.conversions / acc.desktop.clicks * 100 else 0 := rfl
  have hconcrete : (deviceData exMD5).mobileData.ctr = 5 := by
    norm_num [deviceData, allDeviceRecords, exMD5, deviceOnlyCampaign, deviceStep,
      addDeviceCounts, mobileInit, desktopInit, finalizeDevice, exDev1, exDev2,
      breakdownRow]
  refine ⟨⟨?_, ?_, ?_, ?_⟩, ⟨?_, ?_, ?_, ?_⟩, hconcrete,
    by norm_num [exDev1, exDev2], ?_⟩
  · intro h0
    rw [hctrm, himp, h0]
    norm_num
  · intro hne
    have hpos : 0 < (((allDeviceRecords md).filter fun p =>
        decide (p.2.device = "Mobile")).map (fun p => p.2.impressions)).sum :=
      lt_of_le_of_ne (hnn_sum "Mobile" (fun x => x.impressions) (fun d hd => hd.1))
        (Ne.symm hne)
    rw [hctrm, himp, hclk, if_pos hpos]
  · intro h0
    rw [hcrm, hclk, h0]
    norm_num
  · intro hne
    have hpos : 0 < (((allDeviceRecords md).filter fun p =>
        decide (p.2.device = "Mobile")).map (fun p => p.2.clicks)).sum :=
      lt_of_le_of_ne (hnn_sum "Mobile" (fun x => x.clicks) (fun d hd => hd.2.1))
        (Ne.symm hne)
    rw [hcrm, hclk, hcnv, if_pos hpos]
  · intro h0
    rw [hctrd, dimp, h0]
    norm_num
  · intro hne
    have hpos : 0 < (((allDeviceRecords md).filter fun p =>
        decide (p.2.device = "Desktop")).map (fun p => p.2.impressions)).sum :=
      lt_of_le_of_ne (hnn_sum "Desktop" (fun x => x.impressions) (fun d hd => hd.1))
        (Ne.symm hne)
    rw [hctrd, dimp, dclk, if_pos hpos]
  · intro h0
    rw [hcrd, dclk, h0]
    norm_num
  · intro hne
    have hpos : 0 < (((allDeviceRecords md).filter fun p =>
        decide (p.2.device = "Desktop")).map (fun p => p.2.clicks)).sum :=
      lt_of_le_of_ne (hnn_sum "Desktop" (fun x => x.clicks) (fun d hd => hd.2.1))
        (Ne.symm hne)
    rw [hcrd, dclk, dcnv, if_pos hpos]
  · rw [hconcrete]
    norm_num [exDev1, exDev2]

/-- Witness for C5 at the concrete two-campaign input, discharging the
well-formedness hypothesis: the rolled-up mobile `ctr` is 5, not the 25 a
naive average of per-record `ctr` values would give. -/
theorem device_rollup_recompute_witness :
    DeviceDataNonneg exMD5 ∧
    (deviceData exMD5).mobileData.ctr = 5 ∧
    (deviceData exMD5).mobileData.ctr ≠ (exDev1.ctr + exDev2.ctr) / 2 := by
  have hlist : allDeviceRecords exMD5 = [("A", exDev1), ("B", exDev2)] := by
    simp [allDeviceRecords, exMD5, deviceOnlyCampaign]
  have hnn : DeviceDataNonneg exMD5 := by
    intro p hp
    rw [hlist] at hp
    simp only [List.mem_cons, List.not_mem_nil, or_false] at hp
    rcases hp with h | h
    · rw [h]; refine ⟨?_, ?_, ?_, ?_⟩ <;> norm_num [exDev1]
    · rw [h]; refine ⟨?_, ?_, ?_, ?_⟩ <;> norm_num [exDev2]
  have h := device_rollup_recompute exMD5 hnn
  exact ⟨hnn, h.2.2.1, h.2.2.2.2⟩

theorem pct_partition (m d : ℚ) (h : 0 < m + d) :
    m / (m + d) * 100 + d / (m + d) * 100 = 100 := by
  have hne : m + d ≠ 0 := ne_of_gt h
  field_simp
  ring

theorem device_pct_sum_100 (md : MarketingData)
    (hpos : 0 < (deviceData md).mobileData.impressions +
      (deviceData md).desktopData.impressions) :
    (deviceData md).mobileData.percentage_of_traffic +
      (deviceData md).desktopData.percentage_of_traffic = 100 := by
  set acc := (allDeviceRecords md).foldl deviceStep
      { mobile := mobileInit, desktop := desktopInit, rows := [] } with hacc
  have him : (deviceData md).mobileData.impressions = acc.mobile.impressions := rfl
  have hid : (deviceData md).desktopData.impressions = acc.desktop.impressions := rfl
  have hpm : (deviceData md).mobileData.percentage_of_traffic =
      if 0 < acc.mobile.impressions + acc.desktop.impressions then
        acc.mobile.impressions / (acc.mobile.impressions + acc.desktop.impressions) * 100
      else 0 := rfl
  have hpd : (deviceData md).desktopData.percentage_of_traffic =
      if 0 < acc.mobile.impressions + acc.desktop.impressions then
        acc.desktop.impressions / (acc.mobile.impressions + acc.desktop.impressions) * 100
      else 0 := rfl
  rw [him, hid] at hpos
  rw [hpm, hpd, if_pos hpos, if_pos hpos]
  exact pct_partition _ _ hpos

theorem device_pct_zero (md : MarketingData)
    (hzero : (deviceData md).mobileData.impressions +
      (deviceData md).desktopData.impressions = 0) :
    (deviceData md).mobileData.percentage_of_traffic = 0 ∧
    (deviceData md).desktopData.percentage_of_traffic = 0 := by
  set acc := (allDeviceRecords md).foldl deviceStep
      { mobile := mobileInit, desktop := desktopInit, rows := [] } with hacc
  have him : (deviceData md).mobileData.impressions = acc.mobile.impressions := rfl
  have hid : (deviceData md).desktopData.impressions = acc.desktop.impressions := rfl
  have hpm : (deviceData md).mobileData.percentage_of_traffic =
      if 0 < acc.mobile.impressions + acc.desktop.impressions then
        acc.mobile.impressions / (acc.mobile.impressions + acc.desktop.impressions) * 100
      else 0 := rfl
  have hpd : (deviceData md).desktopData.percentage_of_traffic =
      if 0 < acc.mobile.impressions + acc.desktop.impressions then
        acc.desktop.impressions / (acc.mobile.impressions + acc.desktop.impressions) * 100
      else 0 := rfl
  rw [him, hid] at hzero
  have hneg : ¬(0 < acc.mobile.impressions + acc.desktop.impressions) := by
    rw [hzero]; exact lt_irrefl 0
  rw [hpm, hpd, if_neg hneg, if_neg hneg]
  exact ⟨rfl, rfl⟩

/-- Claim C10: the two `percentage_of_traffic` fields of the device rollup
partition the traffic: they sum to 100 whenever the combined impressions
are positive, and are both 0 when the combined impressions are 0. -/
theorem device_traffic_partition (md : MarketingData) :
    (0 < (deviceData md).mobileData.impressions +
        (deviceData md).desktopData.impressions →
      (deviceData md).mobileData.percentage_of_traffic +
        (deviceData md).desktopData.percentage_of_traffic = 100) ∧
    ((deviceData md).mobileData.impressions +
        (deviceData md).desktopData.impressions = 0 →
      (deviceData md).mobileData.percentage_of_traffic = 0 ∧
      (deviceData md).desktopData.percentage_of_traffic = 0) :=
  ⟨device_pct_sum_100 md, device_pct_zero md⟩

/-- Witness for C10: on the concrete snapshot `exMD5` the combined
impressions are 1000, and the two traffic percentages sum to 100; on the
empty snapshot both percentages are 0. -/
theorem device_traffic_partition_witness :
    ((deviceData exMD5).mobileData.percentage_of_traffic +
      (deviceData exMD5).desktopData.percentage_of_traffic = 100) ∧
    ((deviceData exEmptyMD).mobileData.percentage_of_traffic = 0 ∧
     (deviceData exEmptyMD).desktopData.percentage_of_traffic = 0) := by
  constructor
  · apply (device_traffic_partition exMD5).1
    norm_num [deviceData, allDeviceRecords, exMD5, deviceOnlyCampaign, deviceStep,
      addDeviceCounts, mobileInit, desktopInit, finalizeDevice, exDev1, exDev2,
      breakdownRow]
  · apply (device_traffic_partition exEmptyMD).2
    norm_num [deviceData, allDeviceRecords, exEmptyMD, mobileInit, desktopInit,
      finalizeDevice]

/-- Claim C8: every derived-rate computation in the rollups and detail
rows is guarded to 0 on a zero denominator: the regional merge's five
rates, the device buckets' `ctr`/`conversion_rate`/`percentage_of_traffic`,
the per-row breakdown `roas`, the weekly table's render-time `roas`, and
the device page's bucket ROAS values.  All of these are total functions of
their inputs, so no division-by-zero crash path exists in the model. -/
theorem rate_zero_guards :
    (∀ e r : RegionalPerformance, e.impressions + r.impressions = 0 →
      (mergeRegional e r).ctr = 0) ∧
    (∀ e r : RegionalPerformance, e.clicks + r.clicks = 0 →
      (mergeRegional e r).conversion_rate = 0 ∧ (mergeRegional e r).cpc = 0) ∧
    (∀ e r : RegionalPerformance, e.conversions + r.conversions = 0 →
      (mergeRegional e r).cpa = 0) ∧
    (∀ e r : RegionalPerformance, e.spend + r.spend = 0 →
      (mergeRegional e r).roas = 0) ∧
    (∀ md : MarketingData, (deviceData md).mobileData.impressions = 0 →
      (deviceData md).mobileData.ctr = 0) ∧
    (∀ md : MarketingData, (deviceData md).mobileData.clicks = 0 →
      (deviceData md).mobileData.conversion_rate = 0) ∧
    (∀ md : MarketingData, (deviceData md).desktopData.impressions = 0 →
      (deviceData md).desktopData.ctr = 0) ∧
    (∀ md : MarketingData, (deviceData md).desktopData.clicks = 0 →
      (deviceData md).desktopData.conversion_rate = 0) ∧
    (∀ md : MarketingData, (deviceData md).mobileData.impressions +
        (deviceData md).desktopData.impressions = 0 →
      (deviceData md).mobileData.percentage_of_traffic = 0 ∧
      (deviceData md).desktopData.percentage_of_traffic = 0) ∧
    (∀ (nm : String) (d : DevicePerformance), d.spend = 0 →
      (breakdownRow nm d).roas = 0) ∧
    (∀ row : WeeklyPerformance, row.spend = 0 → weeklyRowRoas row = 0) ∧
    (∀ md : MarketingData, (deviceData md).mobileData.spend = 0 →
      mobileRoasOf md = 0) ∧
    (∀ md : MarketingData, (deviceData md).desktopData.spend = 0 →
      desktopRoasOf md = 0) := by
  have hnotlt : ∀ q : ℚ, q = 0 → ¬(0 < q) := by
    intro q hq
    rw [hq]; exact lt_irrefl 0
  refine ⟨?_, ?_, ?_, ?_, ?_, ?_, ?_, ?_, ?_, ?_, ?_, ?_, ?_⟩
  · intro e r h0
    simp only [mergeRegional, if_neg (hnotlt _ h0)]
  · intro e r h0
    constructor <;> simp only [mergeRegional, if_neg (hnotlt _ h0)]
  · intro e r h0
    simp only [mergeRegional, if_neg (hnotlt _ h0)]
  · intro e r h0
    simp only [mergeRegional, if_neg (hnotlt _ h0)]
  · intro md h0
    have h0' : ((allDeviceRecords md).foldl deviceStep
        { mobile := mobileInit, desktop := desktopInit, rows := [] }).mobile.impressions = 0 := h0
    show (if 0 < ((allDeviceRecords md).foldl deviceStep
        { mobile := mobileInit, desktop := desktopInit, rows := [] }).mobile.impressions
      then _ else 0) = 0
    rw [if_neg (hnotlt _ h0')]
  · intro md h0
    have h0' : ((allDeviceRecords md).foldl deviceStep
        { mobile := mobileInit, desktop := desktopInit, rows := [] }).mobile.clicks = 0 := h0
    show (if 0 < ((allDeviceRecords md).foldl deviceStep
        { mobile := mobileInit, desktop := desktopInit, rows := [] }).mobile.clicks
      then _ else 0) = 0
    rw [if_neg (hnotlt _ h0')]
  · intro md h0
    have h0' : ((allDeviceRecords md).foldl deviceStep
        { mobile := mobileInit, desktop := desktopInit, rows := [] }).desktop.impressions = 0 := h0
    show (if 0 < ((allDeviceRecords md).foldl deviceStep
        { mobile := mobileInit, desktop := desktopInit, rows := [] }).desktop.impressions
      then _ else 0) = 0
    rw [if_neg (hnotlt _ h0')]
  · intro md h0
    have h0' : ((allDeviceRecords md).foldl deviceStep
        { mobile := mobileInit, desktop := desktopInit, rows := [] }).desktop.clicks = 0 := h0
    show (if 0 < ((allDeviceRecords md).foldl deviceStep
        { mobile := mobileInit, desktop := desktopInit, rows := [] }).desktop.clicks
      then _ else 0) = 0
    rw [if_neg (hnotlt _ h0')]
  · intro md h0
    exact device_pct_zero md h0
  · intro nm d h0
    simp only [breakdownRow, if_neg (hnotlt _ h0)]
  · intro row h0
    simp only [weeklyRowRoas, if_neg (hnotlt _ h0)]
  · intro md h0
    simp only [mobileRoasOf, if_neg (hnotlt _ h0)]
  · intro md h0
    simp only [desktopRoasOf, if_neg (hnotlt _ h0)]

/-- Witness for C8 at concrete all-zero records: every guarded rate is 0
rather than an error. -/
theorem rate_zero_guards_witness :
    (mergeRegional zeroRegional zeroRegional).ctr = 0 ∧
    (mergeRegional zeroRegional zeroRegional).roas = 0 ∧
    weeklyRowRoas zeroWeekly = 0 ∧
    (breakdownRow "A" zeroDevice).roas = 0 ∧
    (deviceData exEmptyMD).mobileData.ctr = 0 ∧
    mobileRoasOf exEmptyMD = 0 := by
  obtain ⟨g1, g2, g3, g4, g5, g6, g7, g8, g9, g10, g11, g12, g13⟩ := rate_zero_guards
  refine ⟨g1 zeroRegional zeroRegional (by norm_num [zeroRegional]),
    g4 zeroRegional zeroRegional (by norm_num [zeroRegional]),
    g11 zeroWeekly (by norm_num [zeroWeekly]),
    g10 "A" zeroDevice (by norm_num [zeroDevice]),
    g5 exEmptyMD ?_, g12 exEmptyMD ?_⟩
  · norm_num [deviceData, allDeviceRecords, exEmptyMD, finalizeDevice,
      mobileInit, desktopInit]
  · norm_num [deviceData, allDeviceRecords, exEmptyMD, finalizeDevice,
      mobileInit, desktopInit]

/-- Claim C9: running the aggregation loops over an explicit heap of
records leaves every address below the allocation bound — in particular
every input record of every campaign — exactly as it was: the weekly,
regional and device loops write only to freshly allocated copies or fresh
accumulator objects, and the demographic loop performs no writes at all,
so every field of every input record is identical before and after. -/
theorem aggregation_preserves_input
    (h0w : Heap WeeklyPerformance) (h0r : Heap RegionalPerformance)
    (h0d : Heap DevicePerformance) (h0g : Heap DemographicBreakdown)
    (c0 : Nat) (refs : List Nat) (inputs : List (String × Nat))
    (dins : List (Campaign × List Nat)) :
    (∀ a, a < c0 → (weeklyHeapRun h0w c0 refs).heap a = h0w a) ∧
    (∀ a, a < c0 → (regionalHeapRun h0r c0 refs).heap a = h0r a) ∧
    (∀ a, a < c0 → (deviceHeapRun h0d c0 inputs).heap a = h0d a) ∧
    (demographicHeapRun h0g dins).2 = h0g := by
  refine ⟨?_, ?_, ?_, rfl⟩
  · intro a ha
    exact groupHeapRun_preserves (fun w => w.week_start) mergeWeekly h0w c0 refs a ha
  · intro a ha
    exact groupHeapRun_preserves (fun x => x.region) mergeRegional h0r c0 refs a ha
  · intro a ha
    exact deviceHeapRun_preserves h0d c0 inputs a ha

/-- Witness for C9 at concrete heaps, two input records at addresses 0 and
1 and allocation bound 2: the input addresses still hold their original
records after each rollup runs. -/
theorem aggregation_preserves_input_witness :
    (weeklyHeapRun exWeeklyHeap 2 [0, 1]).heap 0 = exWeeklyHeap 0 ∧
    (regionalHeapRun exRegionalHeap 2 [0, 1]).heap 1 = exRegionalHeap 1 ∧
    (deviceHeapRun exDeviceHeap 2 [("A", 0), ("A", 1)]).heap 0 = exDeviceHeap 0 ∧
    (demographicHeapRun exDemoHeap [(exC3, [0, 1])]).2 = exDemoHeap := by
  have h := aggregation_preserves_input exWeeklyHeap exRegionalHeap exDeviceHeap
    exDemoHeap 2 [0, 1] [("A", 0), ("A", 1)] [(exC3, [0, 1])]
  exact ⟨h.1 0 (by decide), h.2.1 1 (by decide), h.2.2.1 0 (by decide), h.2.2.2⟩

/-- Counterexample to C6 as stated: with series values 0 and 10 the
claimed lower bound `min − 0.1 × (max − min)` is −1, but the source clamps
the lower bound at 0 (`Math.max(0, minValue - padding)`), producing 0. -/
theorem line_chart_padding_counterexample :
    chartMinOf exPadSeries = 0 ∧
    minValueOf exPadSeries - paddingOf exPadSeries = -1 ∧
    chartMinOf exPadSeries ≠ minValueOf exPadSeries - paddingOf exPadSeries := by
  have h1 : minValueOf exPadSeries = 0 := by
    norm_num [minValueOf, allValuesOf, jsMinQ, exPadSeries]
  have h2 : maxValueOf exPadSeries = 10 := by
    norm_num [maxValueOf, allValuesOf, jsMaxQ, exPadSeries]
  have hpad : paddingOf exPadSeries = 1 := by
    rw [paddingOf, h1, h2]; norm_num
  have hmin : chartMinOf exPadSeries = 0 := by
    rw [chartMinOf, h1, hpad]; norm_num
  exact ⟨hmin, by rw [h1, hpad]; norm_num, by rw [hmin, h1, hpad]; norm_num⟩

/-- Amended C6: the value domain is the min and max over every value of
every series; the plot domain's upper bound is `max + 0.1 × (max − min)`
while the lower bound is clamped at 0, `max(0, min − 0.1 × (max − min))`;
for nonnegative inputs, when all values are equal the padded domain is
degenerate and every value maps to the vertical midpoint; otherwise the
domain bounds map to the top and the bottom of the plot. -/
theorem line_chart_domain_amended (series : List LineChartSeries)
    (hne : allValuesOf series ≠ [])
    (hnn : ∀ v ∈ allValuesOf series, 0 ≤ v) :
    (∀ v ∈ allValuesOf series, minValueOf series ≤ v ∧ v ≤ maxValueOf series) ∧
    minValueOf series ∈ allValuesOf series ∧
    maxValueOf series ∈ allValuesOf series ∧
    chartMaxOf series = maxValueOf series +
      (maxValueOf series - minValueOf series) * (1 / 10) ∧
    chartMinOf series = max 0 (minValueOf series -
      (maxValueOf series - minValueOf series) * (1 / 10)) ∧
    ((∀ v ∈ allValuesOf series, ∀ w ∈ allValuesOf series, v = w) →
      ∀ H value, getYPosition series H value = H / 2) ∧
    (chartRangeOf series ≠ 0 →
      ∀ H, getYPosition series H (chartMaxOf series) = 0 ∧
        getYPosition series H (chartMinOf series) = H) := by
  have hminmem : minValueOf series ∈ allValuesOf series := jsMinQ_mem hne
  have hmaxmem : maxValueOf series ∈ allValuesOf series := jsMaxQ_mem hne
  refine ⟨?_, hminmem, hmaxmem, rfl, rfl, ?_, ?_⟩
  · intro v hv
    exact ⟨jsMinQ_le hv, le_jsMaxQ hv⟩
  · intro hall H value
    have heq : maxValueOf series = minValueOf series :=
      hall _ hmaxmem _ hminmem
    have hnn0 : 0 ≤ minValueOf series := hnn _ hminmem
    have hrange : chartRangeOf series = 0 := by
      unfold chartRangeOf chartMaxOf chartMinOf paddingOf
      rw [heq, sub_self, zero_mul, add_zero, sub_zero, max_eq_right hnn0, sub_self]
    unfold getYPosition
    rw [if_pos hrange]
  · intro hrange H
    constructor
    · unfold getYPosition
      rw [if_neg hrange]
      have h1 : chartMaxOf series - chartMinOf series = chartRangeOf series := rfl
      rw [h1, div_self hrange]
      ring
    · unfold getYPosition
      rw [if_neg hrange, sub_self, zero_div]
      ring

/-- Witness for the amended C6 at a concrete all-equal nonnegative series:
every value maps to the vertical midpoint `220 / 2 = 110`. -/
theorem line_chart_domain_amended_witness :
    allValuesOf exFlatSeries ≠ [] ∧
    getYPosition exFlatSeries 220 5 = 110 := by
  have hne : allValuesOf exFlatSeries ≠ [] := by
    simp [allValuesOf, exFlatSeries]
  have hnn : ∀ v ∈ allValuesOf exFlatSeries, 0 ≤ v := by
    intro v hv
    simp [allValuesOf, exFlatSeries] at hv
    rw [hv]
    norm_num
  have hall : ∀ v ∈ allValuesOf exFlatSeries, ∀ w ∈ allValuesOf exFlatSeries, v = w := by
    intro v hv w hw
    simp [allValuesOf, exFlatSeries] at hv hw
    rw [hv, hw]
  have h := (line_chart_domain_amended exFlatSeries hne hnn).2.2.2.2.2.1 hall 220 5
  refine ⟨hne, ?_⟩
  rw [h]
  norm_num

/-- Claim C7: for a batch with distinct min and max, each point's radius is
`minRadius + sqrt((value − min) / (max − min)) × sizeSpan` with
`minRadius = 8` and `sizeSpan = 24`, so that the squared normalized radius
`((radius − 8) / 24)²` equals the normalized fraction (area-proportional,
sub-linear scaling); when `max = min` (including a single point) every
point gets the midpoint radius 20. -/
theorem bubble_radius_scaling (data : List BubbleMapDataPoint) :
    (jsMaxQ (bubbleValues data) ≠ jsMinQ (bubbleValues data) →
      ∀ d ∈ data,
        bubbleSizeIn data d.value =
          8 + Real.sqrt (((d.value - jsMinQ (bubbleValues data)) /
            (jsMaxQ (bubbleValues data) - jsMinQ (bubbleValues data)) : ℚ)) * 24 ∧
        ((bubbleSizeIn data d.value - 8) / 24) ^ 2 =
          (((d.value - jsMinQ (bubbleValues data)) /
            (jsMaxQ (bubbleValues data) - jsMinQ (bubbleValues data)) : ℚ) : ℝ)) ∧
    (jsMaxQ (bubbleValues data) = jsMinQ (bubbleValues data) →
      ∀ d ∈ data, bubbleSizeIn data d.value = 20) := by
  constructor
  · intro hne d hd
    have hvmem : d.value ∈ bubbleValues data :=
      List.mem_map_of_mem (fun x => x.value) hd
    have hmin_le : jsMinQ (bubbleValues data) ≤ d.value := jsMinQ_le hvmem
    have hlistne : bubbleValues data ≠ [] := by
      intro hcon
      rw [hcon] at hvmem
      cases hvmem
    have hminmax : jsMinQ (bubbleValues data) ≤ jsMaxQ (bubbleValues data) :=
      jsMinQ_le_jsMaxQ hlistne
    have hlt : jsMinQ (bubbleValues data) < jsMaxQ (bubbleValues data) :=
      lt_of_le_of_ne hminmax (Ne.symm hne)
    have hfrac_nonneg : (0 : ℚ) ≤ (d.value - jsMinQ (bubbleValues data)) /
        (jsMaxQ (bubbleValues data) - jsMinQ (bubbleValues data)) :=
      div_nonneg (by linarith) (by linarith)
    have hsize : bubbleSizeIn data d.value =
        8 + Real.sqrt (((d.value - jsMinQ (bubbleValues data)) /
          (jsMaxQ (bubbleValues data) - jsMinQ (bubbleValues data)) : ℚ)) * 24 := by
      unfold bubbleSizeIn bubbleSizeOf normalizedValueOf
      rw [if_neg hne]
    refine ⟨hsize, ?_⟩
    rw [hsize]
    set s := Real.sqrt (((d.value - jsMinQ (bubbleValues data)) /
      (jsMaxQ (bubbleValues data) - jsMinQ (bubbleValues data)) : ℚ)) with hs
    have h2 : (8 + s * 24 - 8) / 24 = s := by ring
    rw [h2, hs]
    exact Real.sq_sqrt (by exact_mod_cast hfrac_nonneg)
  · intro heq d hd
    unfold bubbleSizeIn bubbleSizeOf normalizedValueOf
    rw [if_pos heq]
    norm_num

/-- Witness for C7: in the batch with values 10, 40, 90 the point valued 40
gets radius `8 + sqrt((40 − 10) / (90 − 10)) × 24 = 8 + sqrt(3/8) × 24`,
and a single-point batch gets the midpoint radius 20. -/
theorem bubble_radius_scaling_witness :
    jsMaxQ (bubbleValues exBubbleBatch) ≠ jsMinQ (bubbleValues exBubbleBatch) ∧
    bubbleSizeIn exBubbleBatch 40 = 8 + Real.sqrt (3 / 8) * 24 ∧
    bubbleSizeIn exBubbleSingle 7 = 20 := by
  have hmax : jsMaxQ (bubbleValues exBubbleBatch) = 90 := by
    norm_num [jsMaxQ, bubbleValues, exBubbleBatch]
  have hmin : jsMinQ (bubbleValues exBubbleBatch) = 10 := by
    norm_num [jsMinQ, bubbleValues, exBubbleBatch]
  have hne : jsMaxQ (bubbleValues exBubbleBatch) ≠ jsMinQ (bubbleValues exBubbleBatch) := by
    rw [hmax, hmin]; norm_num
  have hmem : exBubble40 ∈ exBubbleBatch := by simp [exBubbleBatch, exBubble40]
  have h := ((bubble_radius_scaling exBubbleBatch).1 hne exBubble40 hmem).1
  have hval : exBubble40.value = 40 := rfl
  rw [hval] at h
  have hfrac : ((40 : ℚ) - jsMinQ (bubbleValues exBubbleBatch)) /
      (jsMaxQ (bubbleValues exBubbleBatch) - jsMinQ (bubbleValues exBubbleBatch)) =
      3 / 8 := by
    rw [hmax, hmin]; norm_num
  rw [hfrac] at h
  have hcast : (((3 : ℚ) / 8 : ℚ) : ℝ) = 3 / 8 := by push_cast; ring
  rw [hcast] at h
  have hdeg : jsMaxQ (bubbleValues exBubbleSingle) = jsMinQ (bubbleValues exBubbleSingle) := by
    norm_num [jsMaxQ, jsMinQ, bubbleValues, exBubbleSingle]
  have hmem1 : (⟨"Dubai", "UAE", 7, none⟩ : BubbleMapDataPoint) ∈ exBubbleSingle := by
    simp [exBubbleSingle]
  have h20 := (bubble_radius_scaling exBubbleSingle).2 hdeg _ hmem1
  exact ⟨hne, h, h20⟩

end AmanaMarketing
